import Mathlib

/-!
# Verification of the orchestration-kit control plane

Shallow embedding of the core operations of the orchestration-kit
repository: the event/manifest parser (`dashboard/parsing.py`), the index
store upserts and reindex (`dashboard/indexing.py`), the MCP output
clamping (`mcp/server.py`), the state-file writers
(`dashboard/registry.py`, `dashboard/service.py`, `tools/cloud/batch.py`,
`tools/cloud/state.py`, `tools/cloud/remote.py`), the cloud batch
dispatcher (`tools/cloud/batch.py`), the remote run orchestrator and
status poller (`tools/cloud/remote.py`) and the instance reaper
(`tools/cloud/reaper.py`).

Filesystem reads, AWS calls, S3 probes and timestamp/number parsing are
modelled as explicit oracle inputs; every piece of control flow and data
manipulation is translated directly from the Python source.  Python
numbers that are floats in the source are modelled as rationals, and
Python `bool` values flowing into `int` contexts are modelled as 0/1
(CPython's `bool` is a subtype of `int`).
-/

namespace OrchKit

/-! ## JSON values

Model of the values produced by `json.loads`.  Objects are association
lists; `jget` looks a key up with Python's duplicate-key semantics
(the last occurrence wins, as in `json.loads`). -/

inductive Json where
  | null : Json
  | bool : Bool → Json
  | int : Int → Json
  | str : String → Json
  | arr : List Json → Json
  | obj : List (String × Json) → Json

/-- Look a key up in a JSON object's field list; the last binding wins. -/
def jget (fields : List (String × Json)) (key : String) : Option Json :=
  (fields.reverse.find? (fun kv => kv.1 = key)).map (·.2)

/-- `isinstance(x, str)`: extract a string payload, refusing other shapes. -/
def asStr : Option Json → Option String
  | some (Json.str s) => some s
  | _ => none

/-- `isinstance(x, int)`: extract an integer payload.  CPython's `bool` is
a subtype of `int`, so JSON booleans pass the check as 0/1. -/
def asInt : Option Json → Option Int
  | some (Json.int n) => some n
  | some (Json.bool b) => some (if b then 1 else 0)
  | _ => none

/-- Extract an object's field list. -/
def asObj : Option Json → Option (List (String × Json))
  | some (Json.obj fields) => some fields
  | _ => none

/-- Extract an array's element list. -/
def asArr : Option Json → Option (List Json)
  | some (Json.arr xs) => some xs
  | _ => none

/-! ## `parse_jsonl` (`dashboard/parsing.py` lines 12-25)

A raw line of `events.jsonl` is blank after stripping, fails
`json.loads`, or parses to a JSON value (only `dict` payloads are kept).
-/

inductive Line where
  | blank : Line
  | malformed : Line
  | val : Json → Line

/-- `parse_jsonl`: keep the object-valued lines, in file order; blank,
malformed and non-object lines are silently skipped. -/
def parse_jsonl : List Line → List (List (String × Json))
  | [] => []
  | Line.blank :: rest => parse_jsonl rest
  | Line.malformed :: rest => parse_jsonl rest
  | Line.val (Json.obj fields) :: rest => fields :: parse_jsonl rest
  | Line.val _ :: rest => parse_jsonl rest

/-- Whether a raw line survives `parse_jsonl` (a well-formed JSON object). -/
def isObjLine : Line → Bool
  | Line.val (Json.obj _) => true
  | _ => false

theorem parse_jsonl_filter (lines : List Line) :
    parse_jsonl (lines.filter isObjLine) = parse_jsonl lines := by
  induction lines with
  | nil => rfl
  | cons l rest ih =>
    cases l with
    | blank => simpa [List.filter, isObjLine, parse_jsonl] using ih
    | malformed => simpa [List.filter, isObjLine, parse_jsonl] using ih
    | val j =>
      cases j <;> simp [List.filter, isObjLine, parse_jsonl, ih]

/-! ## Python value coercions used by the parser -/

/-- `repr()` of a `json.loads` value (used via `str()` on nested values).
String escaping inside `repr` of a `str` is not modelled; it affects only
pathological payloads fed to `str(event.get("run_id", ...))`. -/
def jsonRepr : Json → String
  | Json.null => "None"
  | Json.bool true => "True"
  | Json.bool false => "False"
  | Json.int n => toString n
  | Json.str s => "'" ++ s ++ "'"
  | Json.arr xs =>
      "[" ++ String.intercalate ", " (xs.attach.map (fun x => jsonRepr x.1)) ++ "]"
  | Json.obj fs =>
      "\x7b" ++
        String.intercalate ", "
          (fs.attach.map (fun kv => "'" ++ kv.1.1 ++ "': " ++ jsonRepr kv.1.2)) ++
      "\x7d"
decreasing_by
  all_goals simp_wf
  all_goals first
    | (have h1 := List.sizeOf_lt_of_mem x.2; omega)
    | (obtain ⟨⟨a, b⟩, hmem⟩ := kv
       have h2 := List.sizeOf_lt_of_mem hmem
       simp only [Prod.mk.sizeOf_spec] at h2 ⊢
       omega)

/-- `str()` of a `json.loads` value. -/
def jsonToStr : Json → String
  | Json.str s => s
  | j => jsonRepr j

/-- Python `a or b` for optional strings: `a` unless it is `None` or
the empty string (falsy). -/
def pyOr (newer old : Option String) : Option String :=
  match newer with
  | some s => if s = "" then old else some s
  | none => old

/-! ## Run and request records (`dashboard/parsing.py` lines 106-129, 197-215)

The dictionaries built by `parse_run`, and equally the columns of the
`runs` and `requests` tables (`dashboard/schema.py`). -/

structure RunRecord where
  project_id : String
  run_id : String
  parent_run_id : Option String := none
  kit : Option String := none
  phase : Option String := none
  started_at : Option String := none
  finished_at : Option String := none
  exit_code : Option Int := none
  status : Option String := none
  capsule_path : Option String := none
  manifest_path : Option String := none
  log_path : Option String := none
  events_path : Option String := none
  cwd : Option String := none
  project_root : Option String := none
  orchestration_kit_root : Option String := none
  agent_runtime : Option String := none
  host : Option String := none
  pid : Option Int := none
  reasoning : Option String := none
  experiment_name : Option String := none
  verdict : Option String := none
deriving DecidableEq, Repr

structure ReqRecord where
  project_id : String
  request_id : String
  parent_run_id : Option String := none
  child_run_id : Option String := none
  from_kit : Option String := none
  from_phase : Option String := none
  to_kit : Option String := none
  to_phase : Option String := none
  action : Option String := none
  status : Option String := none
  request_path : Option String := none
  response_path : Option String := none
  enqueued_ts : Option String := none
  completed_ts : Option String := none
  reasoning : Option String := none
deriving DecidableEq, Repr

/-- The project dictionary handed to `parse_run` (string parts only; the
resolved `Path` variants matter only through the filesystem oracle). -/
structure Project where
  project_id : String
  orchestration_kit_root : String
  project_root : String
deriving DecidableEq, Repr

/-! ## The event fold (`dashboard/parsing.py` lines 133-241) -/

/-- `requests.setdefault(request_id, default)` followed by in-place
mutation `f`, over an insertion-ordered association list. -/
def upsertReq (l : List (String × ReqRecord)) (k : String) (dflt : ReqRecord)
    (f : ReqRecord → ReqRecord) : List (String × ReqRecord) :=
  if l.any (fun kv => kv.1 = k) then
    l.map (fun kv => if kv.1 = k then (k, f kv.2) else kv)
  else
    l ++ [(k, f dflt)]

/-- One step of the event loop.  `origRunId` is the local `run_id`
variable (`run_root.name`), which seeds `requests[*].parent_run_id` and
the `str(event.get("run_id", run_id))` default. -/
def applyEvent (origRunId : String) (projId : String)
    (st : RunRecord × List (String × ReqRecord)) (ev : List (String × Json)) :
    RunRecord × List (String × ReqRecord) :=
  let r := st.1
  let reqs := st.2
  let eventName := asStr (jget ev "event")
  let ts := asStr (jget ev "ts")
  if eventName = some "run_started" then
    ({ r with
        run_id := match jget ev "run_id" with
          | some v => jsonToStr v
          | none => origRunId
        parent_run_id := asStr (jget ev "parent_run_id")
        kit := (asStr (jget ev "kit")).orElse (fun _ => r.kit)
        phase := (asStr (jget ev "phase")).orElse (fun _ => r.phase)
        started_at := pyOr ts r.started_at
        project_root := (asStr (jget ev "project_root")).orElse (fun _ => r.project_root)
        orchestration_kit_root :=
          (asStr (jget ev "orchestration_kit_root")).orElse (fun _ => r.orchestration_kit_root)
        agent_runtime := (asStr (jget ev "agent_runtime")).orElse (fun _ => r.agent_runtime)
        host := (asStr (jget ev "host")).orElse (fun _ => r.host)
        pid := (asInt (jget ev "pid")).orElse (fun _ => r.pid)
        reasoning := (asStr (jget ev "reasoning")).orElse (fun _ => r.reasoning) }, reqs)
  else if eventName = some "phase_started" then
    ({ r with
        kit := (asStr (jget ev "kit")).orElse (fun _ => r.kit)
        phase := (asStr (jget ev "phase")).orElse (fun _ => r.phase)
        cwd := (asStr (jget ev "cwd")).orElse (fun _ => r.cwd) }, reqs)
  else if eventName = some "phase_finished" then
    ({ r with
        exit_code := (asInt (jget ev "exit_code")).orElse (fun _ => r.exit_code)
        log_path := (asStr (jget ev "log_path")).orElse (fun _ => r.log_path) }, reqs)
  else if eventName = some "capsule_written" then
    ({ r with
        capsule_path := (asStr (jget ev "capsule_path")).orElse (fun _ => r.capsule_path) }, reqs)
  else if eventName = some "manifest_written" then
    ({ r with
        manifest_path := (asStr (jget ev "manifest_path")).orElse (fun _ => r.manifest_path) }, reqs)
  else if eventName = some "run_finished" then
    ({ r with
        finished_at := pyOr ts r.finished_at
        exit_code := (asInt (jget ev "exit_code")).orElse (fun _ => r.exit_code)
        capsule_path := (asStr (jget ev "capsule_path")).orElse (fun _ => r.capsule_path)
        manifest_path := (asStr (jget ev "manifest_path")).orElse (fun _ => r.manifest_path)
        agent_runtime := (asStr (jget ev "agent_runtime")).orElse (fun _ => r.agent_runtime)
        host := (asStr (jget ev "host")).orElse (fun _ => r.host)
        pid := (asInt (jget ev "pid")).orElse (fun _ => r.pid) }, reqs)
  else if eventName = some "request_enqueued" ∨ eventName = some "request_completed" then
    match asStr (jget ev "request_id") with
    | none => (r, reqs)
    | some requestId =>
      let dflt : ReqRecord :=
        { project_id := projId, request_id := requestId, parent_run_id := some origRunId }
      let step : ReqRecord → ReqRecord := fun q0 =>
        let q :=
          { q0 with
              request_path := (asStr (jget ev "request_path")).orElse (fun _ => q0.request_path)
              response_path := (asStr (jget ev "response_path")).orElse (fun _ => q0.response_path)
              child_run_id := (asStr (jget ev "child_run_id")).orElse (fun _ => q0.child_run_id)
              from_kit := (asStr (jget ev "from_kit")).orElse (fun _ => q0.from_kit)
              from_phase := (asStr (jget ev "from_phase")).orElse (fun _ => q0.from_phase)
              to_kit := (asStr (jget ev "to_kit")).orElse (fun _ => q0.to_kit)
              to_phase := (asStr (jget ev "to_phase")).orElse (fun _ => q0.to_phase)
              action := (asStr (jget ev "action")).orElse (fun _ => q0.action)
              status := (asStr (jget ev "status")).orElse (fun _ => q0.status)
              reasoning := (asStr (jget ev "reasoning")).orElse (fun _ => q0.reasoning) }
        if eventName = some "request_enqueued" then
          { q with enqueued_ts := pyOr ts q.enqueued_ts }
        else
          { q with completed_ts := pyOr ts q.completed_ts }
      (r, upsertReq reqs requestId dflt step)
  else
    (r, reqs)

/-! ## Filesystem oracle for `parse_run`

`parse_run` touches the filesystem in four places: the glob fallbacks for
`manifests/*.json`, `capsules/*.md`, `logs/*.log` (lines 243-256), the
manifest read (`parse_manifest_full`, total: `{}` on any failure), and
the 5 KiB head read of an `analysis.md` artifact.  These reads are
modelled as oracle fields; all decisions taken on their results are
translated from the source. -/

structure Fs where
  /-- `rel_to(orchestration_kit_root_path, run_root / "events.jsonl")`. -/
  eventsPathRel : String
  /-- Relative path of the lexicographically first `manifests/*.json`, if any. -/
  fallbackManifest : Option String
  /-- Relative path of the lexicographically first `capsules/*.md`, if any. -/
  fallbackCapsule : Option String
  /-- Relative path of the lexicographically first `logs/*.log`, if any. -/
  fallbackLog : Option String
  /-- `parse_manifest_full` on a non-empty pointer: the payload's fields
  when the resolved file parses to a JSON object, `[]` otherwise. -/
  manifestAt : String → List (String × Json)
  /-- First 5120 bytes of `project_root / path` decoded with
  `errors="replace"`; `none` when the file is missing or unreadable. -/
  analysisHead : String → Option String

/-- `parse_manifest_full` guard on the pointer itself:
`resolve_pointer` returns `None` for a `None` or empty pointer. -/
def manifestFull (fs : Fs) : Option String → List (String × Json)
  | none => []
  | some p => if p = "" then [] else fs.manifestAt p

/-! ## Verdict extraction (`dashboard/parsing.py` lines 74-94)

The regex `##\s*Verdict:\s*(CONFIRMED|REFUTED|INCONCLUSIVE)` (case
insensitive) searched over the artifact head.  `\s` is modelled by the
six ASCII whitespace characters. -/

def isPySpace (c : Char) : Bool :=
  c = ' ' || c = '\t' || c = '\n' || c = '\r' || c = Char.ofNat 11 || c = Char.ofNat 12

/-- Case-insensitive literal match; returns the remaining characters.
The literal is given in lowercase. -/
def matchCI : List Char → List Char → Option (List Char)
  | [], cs => some cs
  | _ :: _, [] => none
  | l :: ls, c :: cs => if c.toLower = l then matchCI ls cs else none

/-- Try the verdict pattern at the current position. -/
def tryVerdictAt (cs : List Char) : Option String :=
  (matchCI "##".toList cs).bind fun cs1 =>
    let cs2 := cs1.dropWhile isPySpace
    (matchCI "verdict:".toList cs2).bind fun cs3 =>
      let cs4 := cs3.dropWhile isPySpace
      if (matchCI "confirmed".toList cs4).isSome then some "CONFIRMED"
      else if (matchCI "refuted".toList cs4).isSome then some "REFUTED"
      else if (matchCI "inconclusive".toList cs4).isSome then some "INCONCLUSIVE"
      else none

/-- `re.search`: leftmost match of the verdict pattern. -/
def searchVerdict : List Char → Option String
  | [] => none
  | c :: rest =>
    match tryVerdictAt (c :: rest) with
    | some v => some v
    | none => searchVerdict rest

/-- `_extract_verdict`.  A non-object entry in `tracked` raises
`AttributeError` in Python (`art.get` on a non-dict), modelled as
`.error`. -/
def extract_verdict (fs : Fs) : List Json → Except Unit (Option String)
  | [] => .ok none
  | Json.obj fields :: rest =>
      match asStr ((jget fields "path").getD (Json.str "")) with
      | none => extract_verdict fs rest
      | some p =>
        if ("/results/".toList <:+: p.toList) ∧ p.endsWith "/analysis.md" then
          match fs.analysisHead p with
          | none => extract_verdict fs rest
          | some text =>
            match searchVerdict text.toList with
            | some v => .ok (some v)
            | none => extract_verdict fs rest
        else extract_verdict fs rest
  | _ :: _ => .error ()

/-! ## Experiment-name extraction (`dashboard/parsing.py` lines 66-71) -/

/-- `PurePosixPath(s).name`: the last path component, with empty and `.`
components dropped by path normalization. -/
def pyName (s : String) : String :=
  ((((s.splitOn "/").filter (fun p => p ≠ "" && p ≠ ".")).getLast?).getD "")

/-- `PurePosixPath(s).stem`: the name with its final suffix removed; a
dot at position 0 or at the very end does not start a suffix. -/
def pyStem (s : String) : String :=
  let nm := pyName s
  let cs := nm.toList
  match ((List.range cs.length).filter (fun i => cs.getD i ' ' = '.')).getLast? with
  | some i => if 0 < i ∧ i < cs.length - 1 then String.mk (cs.take i) else nm
  | none => nm

/-- `_extract_experiment_name`: stem of the last element of
`metadata.command[]`, `None` when absent, empty, or with empty stem. -/
def extractExperimentName (metadata : List (String × Json)) : Option String :=
  match asArr (jget metadata "command") with
  | none => none
  | some [] => none
  | some (c :: cs) =>
    let lastArg := jsonToStr ((c :: cs).getLast (by simp))
    if pyStem lastArg = "" then none else some (pyStem lastArg)

/-! ## `parse_run` (`dashboard/parsing.py` lines 97-311) -/

/-- Python's `sorted` key `(x.get("enqueued_ts") or "", x["request_id"])`,
as a boolean total preorder. -/
def reqKeyLE (x y : ReqRecord) : Bool :=
  let kx := x.enqueued_ts.getD ""
  let ky := y.enqueued_ts.getD ""
  decide (kx < ky) || (kx == ky && decide (x.request_id ≤ y.request_id))

/-- The glob fallbacks for missing pointer paths
(`dashboard/parsing.py` lines 243-256). -/
def apply_fallbacks (fs : Fs) (r : RunRecord) : RunRecord :=
  { r with
      manifest_path := r.manifest_path.orElse (fun _ => fs.fallbackManifest)
      capsule_path := r.capsule_path.orElse (fun _ => fs.fallbackCapsule)
      log_path := r.log_path.orElse (fun _ => fs.fallbackLog) }

/-- The `if metadata:` fill of still-NULL run fields (lines 260-286). -/
def fill_from_metadata (metadata : List (String × Json)) (r : RunRecord) : RunRecord :=
  if metadata.isEmpty then r
  else
    { r with
        parent_run_id := r.parent_run_id.orElse (fun _ => asStr (jget metadata "parent_run_id"))
        kit := r.kit.orElse (fun _ => asStr (jget metadata "kit"))
        phase := r.phase.orElse (fun _ => asStr (jget metadata "phase"))
        started_at := r.started_at.orElse (fun _ => asStr (jget metadata "started_at"))
        finished_at := r.finished_at.orElse (fun _ => asStr (jget metadata "finished_at"))
        exit_code := r.exit_code.orElse (fun _ => asInt (jget metadata "exit_code"))
        cwd := r.cwd.orElse (fun _ => asStr (jget metadata "cwd"))
        project_root := (asStr (jget metadata "project_root")).orElse (fun _ => r.project_root)
        orchestration_kit_root :=
          (asStr (jget metadata "orchestration_kit_root")).orElse
            (fun _ => r.orchestration_kit_root)
        agent_runtime := (asStr (jget metadata "agent_runtime")).orElse (fun _ => r.agent_runtime)
        host := (asStr (jget metadata "host")).orElse (fun _ => r.host)
        pid := (asInt (jget metadata "pid")).orElse (fun _ => r.pid)
        reasoning := r.reasoning.orElse (fun _ => asStr (jget metadata "reasoning")) }

/-- Experiment-name extraction guarded by `if metadata:` (lines 288-292). -/
def apply_experiment_name (metadata : List (String × Json)) (r : RunRecord) : RunRecord :=
  if metadata.isEmpty then r
  else
    match extractExperimentName metadata with
    | some s => { r with experiment_name := some s }
    | none => r

/-- Verdict extraction from `artifact_index.tracked[]` (lines 294-302). -/
def apply_verdict (fs : Fs) (mf : List (String × Json)) (r : RunRecord) :
    Except Unit RunRecord :=
  match asObj (jget mf "artifact_index") with
  | some ai =>
    match asArr (jget ai "tracked") with
    | some tracked => do
        let v ← extract_verdict fs tracked
        pure (match v with
          | some vv => { r with verdict := some vv }
          | none => r)
    | none => pure r
  | none => pure r

/-- Everything `parse_run` does before the final status derivation and
request sort: fold the events, apply filesystem fallbacks, fill from the
manifest metadata, extract experiment name and verdict.  Errors exactly
where the Python function raises (non-dict entries of
`artifact_index.tracked[]`). -/
def parse_run_core (project : Project) (fs : Fs) (runRootName : String) (lines : List Line) :
    Except Unit (RunRecord × List (String × ReqRecord)) := do
  let records := parse_jsonl lines
  let run0 : RunRecord :=
    { project_id := project.project_id
      run_id := runRootName
      events_path := some fs.eventsPathRel
      project_root := some project.project_root
      orchestration_kit_root := some project.orchestration_kit_root }
  let folded := records.foldl (applyEvent runRootName project.project_id) (run0, [])
  let r2 := apply_fallbacks fs folded.1
  let mf := manifestFull fs r2.manifest_path
  let metadata := (asObj (jget mf "metadata")).getD []
  let r4 := apply_experiment_name metadata (fill_from_metadata metadata r2)
  let r5 ← apply_verdict fs mf r4
  pure (r5, folded.2)

/-- The status derivation at the tail of `parse_run`
(`dashboard/parsing.py` lines 304-309). -/
def deriveStatus (r : RunRecord) : RunRecord :=
  { r with
      status := some
        (if r.finished_at = none then "running"
         else if r.exit_code = some 0 then "ok"
         else "failed") }

/-- `sorted(requests.values(), key=...)` (line 311). -/
def finalizeReqs (reqs : List (String × ReqRecord)) : List ReqRecord :=
  (reqs.map (fun kv => kv.2)).mergeSort reqKeyLE

/-- The full `parse_run`. -/
def parse_run (project : Project) (fs : Fs) (runRootName : String) (lines : List Line) :
    Except Unit (RunRecord × List ReqRecord) :=
  (parse_run_core project fs runRootName lines).map
    (fun x => (deriveStatus x.1, finalizeReqs x.2))

/-! ## C1: status derivation and totality of `parse_run` -/

/-- The `artifact_index.tracked[]` list of a parsed manifest payload,
as consulted by `parse_run` lines 295-302. -/
def trackedOf (mf : List (String × Json)) : List Json :=
  match asObj (jget mf "artifact_index") with
  | some ai => (asArr (jget ai "tracked")).getD []
  | none => []

/-- A filesystem whose manifests have only object entries in
`artifact_index.tracked[]` (anything else makes the Python code raise
`AttributeError`). -/
def Fs.WellShaped (fs : Fs) : Prop :=
  ∀ p j, j ∈ trackedOf (fs.manifestAt p) → ∃ fields, j = Json.obj fields

theorem extract_verdict_ok (fs : Fs) (tracked : List Json)
    (h : ∀ j ∈ tracked, ∃ fields, j = Json.obj fields) :
    ∃ v, extract_verdict fs tracked = .ok v := by
  induction tracked with
  | nil => exact ⟨none, rfl⟩
  | cons a rest ih =>
    obtain ⟨fields, rfl⟩ := h a (by simp)
    have ih' := ih (fun j hj => h j (by simp [hj]))
    rw [extract_verdict]
    cases has : asStr ((jget fields "path").getD (Json.str "")) with
    | none => exact ih'
    | some p =>
      dsimp only
      by_cases hcond : ("/results/".toList <:+: p.toList) ∧ p.endsWith "/analysis.md" = true
      · rw [if_pos hcond]
        cases fs.analysisHead p with
        | none => exact ih'
        | some text =>
          dsimp only
          cases searchVerdict text.toList with
          | some v => exact ⟨some v, rfl⟩
          | none => exact ih'
      · rw [if_neg hcond]
        exact ih'

theorem manifestFull_wellShaped (fs : Fs) (hfs : Fs.WellShaped fs) (mp : Option String) :
    ∀ j ∈ trackedOf (manifestFull fs mp), ∃ fields, j = Json.obj fields := by
  cases mp with
  | none => simp [manifestFull, trackedOf, jget, asObj]
  | some p =>
    by_cases hp : p = ""
    · simp [manifestFull, hp, trackedOf, jget, asObj]
    · simpa [manifestFull, hp] using hfs p

theorem manifestFull_tracked_objs (fs : Fs) (hfs : Fs.WellShaped fs) (mp : Option String)
    (ai : List (String × Json)) (tracked : List Json)
    (h1 : asObj (jget (manifestFull fs mp) "artifact_index") = some ai)
    (h2 : asArr (jget ai "tracked") = some tracked) :
    ∀ j ∈ tracked, ∃ fields, j = Json.obj fields := by
  intro j hj
  apply manifestFull_wellShaped fs hfs mp
  unfold trackedOf
  rw [h1]
  dsimp only
  rw [h2]
  simpa using hj

theorem apply_verdict_ok (fs : Fs) (hfs : Fs.WellShaped fs) (mp : Option String)
    (r : RunRecord) : ∃ r5, apply_verdict fs (manifestFull fs mp) r = .ok r5 := by
  unfold apply_verdict
  split
  · next ai heq =>
    split
    · next tracked heq2 =>
      obtain ⟨v, hv⟩ :=
        extract_verdict_ok fs tracked (manifestFull_tracked_objs fs hfs mp ai tracked heq heq2)
      simp only [bind, Except.bind]
      rw [hv]
      exact ⟨_, rfl⟩
    · exact ⟨_, rfl⟩
  · exact ⟨_, rfl⟩

theorem bind_pair_ok (e : Except Unit RunRecord) (reqs : List (String × ReqRecord))
    (h : ∃ r, e = .ok r) :
    ∃ x, (do let r5 ← e; pure (r5, reqs) : Except Unit (RunRecord × List (String × ReqRecord))) =
      .ok x := by
  obtain ⟨r, rfl⟩ := h
  exact ⟨(r, reqs), rfl⟩

theorem parse_run_core_total (project : Project) (fs : Fs) (rid : String)
    (lines : List Line) (hfs : Fs.WellShaped fs) :
    ∃ x, parse_run_core project fs rid lines = .ok x := by
  unfold parse_run_core
  exact bind_pair_ok _ _ (apply_verdict_ok fs hfs _ _)

theorem parse_run_core_filter (project : Project) (fs : Fs) (rid : String)
    (lines : List Line) :
    parse_run_core project fs rid (lines.filter isObjLine) =
      parse_run_core project fs rid lines := by
  unfold parse_run_core
  rw [parse_jsonl_filter]

/-- C1: every run record produced by `parse_run` has `status = "running"`
exactly when `finished_at` is `NULL`; when `finished_at` is set,
`status = "ok"` exactly when `exit_code = 0` and `"failed"` otherwise
(including a `NULL` exit code); and the parse is total and insensitive to
blank, malformed, or non-object JSONL lines, yielding a best-effort
record rather than an error. -/
theorem parse_run_status_and_total (project : Project) (fs : Fs) (rid : String)
    (lines : List Line) (hfs : Fs.WellShaped fs) :
    (∃ r reqs, parse_run project fs rid lines = .ok (r, reqs)) ∧
    (∀ r reqs, parse_run project fs rid lines = .ok (r, reqs) →
      ((r.status = some "running" ↔ r.finished_at = none) ∧
       (r.finished_at ≠ none → (r.status = some "ok" ↔ r.exit_code = some 0)) ∧
       (r.finished_at ≠ none → (r.status = some "failed" ↔ r.exit_code ≠ some 0)))) ∧
    parse_run project fs rid (lines.filter isObjLine) =
      parse_run project fs rid lines := by
  refine ⟨?_, ?_, ?_⟩
  · obtain ⟨x, hx⟩ := parse_run_core_total project fs rid lines hfs
    exact ⟨deriveStatus x.1, finalizeReqs x.2, by simp [parse_run, hx, Except.map]⟩
  · intro r reqs h
    cases hc : parse_run_core project fs rid lines with
    | error e => simp [parse_run, hc, Except.map] at h
    | ok x =>
      simp only [parse_run, hc, Except.map, Except.ok.injEq, Prod.mk.injEq] at h
      obtain ⟨hr, -⟩ := h
      subst hr
      unfold deriveStatus
      by_cases hfin : x.1.finished_at = none
      · simp [hfin]
      · by_cases hec : x.1.exit_code = some 0 <;> simp [hfin, hec]
  · simp [parse_run, parse_run_core_filter]

/-- Closed witness for C1 at a concrete input: a stream with a blank
line, a malformed line, a non-object line, a partial `run_started` and a
`run_finished` with exit code 0. -/
def fsEmpty : Fs :=
  { eventsPathRel := "runs/R1/events.jsonl"
    fallbackManifest := none
    fallbackCapsule := none
    fallbackLog := none
    manifestAt := fun _ => []
    analysisHead := fun _ => none }

def projA : Project :=
  { project_id := "abc123abc123"
    orchestration_kit_root := "/w/kit"
    project_root := "/w" }

def linesA : List Line :=
  [Line.blank,
   Line.malformed,
   Line.val (Json.int 5),
   Line.val (Json.obj [("event", Json.str "run_started"), ("kit", Json.str "research"),
                       ("ts", Json.str "2026-01-01T00:00:00Z")]),
   Line.val (Json.obj [("event", Json.str "run_finished"), ("exit_code", Json.int 0),
                       ("ts", Json.str "2026-01-01T01:00:00Z")])]

theorem parse_run_status_and_total_witness :
    Fs.WellShaped fsEmpty ∧
    (∃ r reqs, parse_run projA fsEmpty "R1" linesA = .ok (r, reqs)) := by
  have hfs : Fs.WellShaped fsEmpty := by
    intro p j hj
    simp [fsEmpty, trackedOf, jget, asObj] at hj
  exact ⟨hfs, (parse_run_status_and_total projA fsEmpty "R1" linesA hfs).1⟩

/-! ## C2: the single-run upsert (`dashboard/indexing.py` lines 124-185)

`_upsert_run`'s `INSERT ... ON CONFLICT(project_id, run_id) DO UPDATE`:
`parent_run_id` and `status` are set from `excluded` unconditionally;
every other column is `COALESCE(excluded.col, col)`. -/

def upsert_run (old : Option RunRecord) (next : RunRecord) : RunRecord :=
  match old with
  | none => next
  | some o =>
    { project_id := o.project_id
      run_id := o.run_id
      parent_run_id := next.parent_run_id
      kit := next.kit.orElse (fun _ => o.kit)
      phase := next.phase.orElse (fun _ => o.phase)
      started_at := next.started_at.orElse (fun _ => o.started_at)
      finished_at := next.finished_at.orElse (fun _ => o.finished_at)
      exit_code := next.exit_code.orElse (fun _ => o.exit_code)
      status := next.status
      capsule_path := next.capsule_path.orElse (fun _ => o.capsule_path)
      manifest_path := next.manifest_path.orElse (fun _ => o.manifest_path)
      log_path := next.log_path.orElse (fun _ => o.log_path)
      events_path := next.events_path.orElse (fun _ => o.events_path)
      cwd := next.cwd.orElse (fun _ => o.cwd)
      project_root := next.project_root.orElse (fun _ => o.project_root)
      orchestration_kit_root :=
        next.orchestration_kit_root.orElse (fun _ => o.orchestration_kit_root)
      agent_runtime := next.agent_runtime.orElse (fun _ => o.agent_runtime)
      host := next.host.orElse (fun _ => o.host)
      pid := next.pid.orElse (fun _ => o.pid)
      reasoning := next.reasoning.orElse (fun _ => o.reasoning)
      experiment_name := next.experiment_name.orElse (fun _ => o.experiment_name)
      verdict := next.verdict.orElse (fun _ => o.verdict) }

/-- Extract the run record of a successful parse (used to build concrete
rows; the fallback is never reached in the instances below). -/
def runRecOf (e : Except Unit (RunRecord × List ReqRecord)) : RunRecord :=
  match e with
  | .ok x => x.1
  | .error _ => { project_id := "", run_id := "" }

/-- Event stream observed while the run carries a parent: a lone
`run_started` with `parent_run_id = "P"`. -/
def linesS1 : List Line :=
  [Line.val (Json.obj [("event", Json.str "run_started"), ("parent_run_id", Json.str "P"),
                       ("kit", Json.str "research"), ("ts", Json.str "2026-01-01T00:00:00Z")])]

/-- A later parse of the same run seeing only a `run_finished` line (no
`run_started`): the parsed record has `parent_run_id = NULL`. -/
def linesS2 : List Line :=
  [Line.val (Json.obj [("event", Json.str "run_finished"), ("exit_code", Json.int 0),
                       ("ts", Json.str "2026-01-01T01:00:00Z")])]

def c2_old_row : RunRecord := upsert_run none (runRecOf (parse_run projA fsEmpty "R1" linesS1))

def c2_new_rec : RunRecord := runRecOf (parse_run projA fsEmpty "R1" linesS2)

/-- C2 counterexample: an existing row with `parent_run_id = "P"` and a
newly parsed record whose `parent_run_id` is `NULL`; the upsert
overwrites the stored non-NULL value with `NULL`, so "every other column
keeps its previously stored value whenever the new record's value is
NULL" is false — `parent_run_id` is not COALESCEd. -/
theorem upsert_run_clobbers_parent_run_id :
    c2_old_row.parent_run_id = some "P" ∧
    c2_new_rec.parent_run_id = none ∧
    c2_new_rec.status = some "ok" ∧
    (upsert_run (some c2_old_row) c2_new_rec).parent_run_id = none := by
  refine ⟨?_, ?_, ?_, ?_⟩ <;> decide

/-- C2 (amended): after upserting a parsed record over an existing row
with the same key, the stored `status` and `parent_run_id` equal the new
record's values (both are last-write-wins), and every other column is
`COALESCE(new, old)` — it keeps its previously stored value whenever the
new record's value is NULL; a fresh insert stores the record as-is.  In
particular upserting a run once while running and once after finishing
leaves the row reflecting the finished state. -/
theorem upsert_run_coalesce_semantics (o n : RunRecord) :
    (upsert_run (some o) n).status = n.status ∧
    (upsert_run (some o) n).parent_run_id = n.parent_run_id ∧
    (upsert_run (some o) n).kit = n.kit.orElse (fun _ => o.kit) ∧
    (upsert_run (some o) n).phase = n.phase.orElse (fun _ => o.phase) ∧
    (upsert_run (some o) n).started_at = n.started_at.orElse (fun _ => o.started_at) ∧
    (upsert_run (some o) n).finished_at = n.finished_at.orElse (fun _ => o.finished_at) ∧
    (upsert_run (some o) n).exit_code = n.exit_code.orElse (fun _ => o.exit_code) ∧
    (upsert_run (some o) n).capsule_path = n.capsule_path.orElse (fun _ => o.capsule_path) ∧
    (upsert_run (some o) n).manifest_path = n.manifest_path.orElse (fun _ => o.manifest_path) ∧
    (upsert_run (some o) n).log_path = n.log_path.orElse (fun _ => o.log_path) ∧
    (upsert_run (some o) n).events_path = n.events_path.orElse (fun _ => o.events_path) ∧
    (upsert_run (some o) n).cwd = n.cwd.orElse (fun _ => o.cwd) ∧
    (upsert_run (some o) n).project_root = n.project_root.orElse (fun _ => o.project_root) ∧
    (upsert_run (some o) n).orchestration_kit_root =
      n.orchestration_kit_root.orElse (fun _ => o.orchestration_kit_root) ∧
    (upsert_run (some o) n).agent_runtime = n.agent_runtime.orElse (fun _ => o.agent_runtime) ∧
    (upsert_run (some o) n).host = n.host.orElse (fun _ => o.host) ∧
    (upsert_run (some o) n).pid = n.pid.orElse (fun _ => o.pid) ∧
    (upsert_run (some o) n).reasoning = n.reasoning.orElse (fun _ => o.reasoning) ∧
    (upsert_run (some o) n).experiment_name =
      n.experiment_name.orElse (fun _ => o.experiment_name) ∧
    (upsert_run (some o) n).verdict = n.verdict.orElse (fun _ => o.verdict) ∧
    upsert_run none n = n ∧
    (upsert_run (some c2_old_row) c2_new_rec).status = some "ok" ∧
    (upsert_run (some c2_old_row) c2_new_rec).finished_at = some "2026-01-01T01:00:00Z" ∧
    (upsert_run (some c2_old_row) c2_new_rec).exit_code = some 0 ∧
    (upsert_run (some c2_old_row) c2_new_rec).kit = some "research" := by
  refine ⟨rfl, rfl, rfl, rfl, rfl, rfl, rfl, rfl, rfl, rfl, rfl, rfl, rfl, rfl, rfl, rfl,
    rfl, rfl, rfl, rfl, rfl, ?_, ?_, ?_, ?_⟩ <;> decide

/-! ## C3: MCP output clamping (`mcp/server.py` lines 40-45, 1255-1276)

`cap_text_bytes(text, limit)` encodes the text as UTF-8, returns it
unchanged when it fits, and otherwise truncates the encoding at `limit`
bytes and re-decodes with `errors="ignore"`.  Text is modelled as its
list of Unicode code points; bytes as naturals. -/

def utf8Size (c : Nat) : Nat :=
  if c < 0x80 then 1 else if c < 0x800 then 2 else if c < 0x10000 then 3 else 4

def utf8EncodeChar (c : Nat) : List Nat :=
  if c < 0x80 then [c]
  else if c < 0x800 then [0xC0 + c / 64, 0x80 + c % 64]
  else if c < 0x10000 then [0xE0 + c / 4096, 0x80 + (c / 64) % 64, 0x80 + c % 64]
  else [0xF0 + c / 262144, 0x80 + (c / 4096) % 64, 0x80 + (c / 64) % 64, 0x80 + c % 64]

def utf8Encode (s : List Nat) : List Nat := (s.map utf8EncodeChar).flatten

/-- A UTF-8 continuation byte. -/
def isCont (b : Nat) : Bool := 0x80 ≤ b && b ≤ 0xBF

/-- Decode one code point at the head of a byte stream: the lead byte `b`
followed by `bs`.  Returns the code point and the number of continuation
bytes consumed, or `none` when no valid sequence starts here (overlong
forms and surrogates rejected, as in CPython's strict decoder). -/
def utf8Step (b : Nat) (bs : List Nat) : Option (Nat × Nat) :=
  if b < 0x80 then some (b, 0)
  else if 0xC2 ≤ b && b ≤ 0xDF then
    match bs with
    | b2 :: _ => if isCont b2 then some ((b - 0xC0) * 64 + (b2 - 0x80), 1) else none
    | [] => none
  else if 0xE0 ≤ b && b ≤ 0xEF then
    match bs with
    | b2 :: b3 :: _ =>
      if (isCont b2 && isCont b3) &&
         ((b ≠ 0xE0 || 0xA0 ≤ b2) && (b ≠ 0xED || b2 ≤ 0x9F)) then
        some ((b - 0xE0) * 4096 + (b2 - 0x80) * 64 + (b3 - 0x80), 2)
      else none
    | _ => none
  else if 0xF0 ≤ b && b ≤ 0xF4 then
    match bs with
    | b2 :: b3 :: b4 :: _ =>
      if ((isCont b2 && isCont b3) && isCont b4) &&
         ((b ≠ 0xF0 || 0x90 ≤ b2) && (b ≠ 0xF4 || b2 ≤ 0x8F)) then
        some ((b - 0xF0) * 262144 + (b2 - 0x80) * 4096 + (b3 - 0x80) * 64 + (b4 - 0x80), 3)
      else none
    | _ => none
  else none

/-- `bytes.decode("utf-8", errors="ignore")`: decode valid sequences,
skip undecodable bytes instead of raising. -/
def utf8DecodeIgnore : List Nat → List Nat
  | [] => []
  | b :: bs =>
    match utf8Step b bs with
    | some (c, k) => c :: utf8DecodeIgnore (bs.drop k)
    | none => utf8DecodeIgnore bs
termination_by l => l.length
decreasing_by
  · have := List.length_drop k bs; simp at *; omega
  · simp

def cap_text_bytes (text : List Nat) (limit : Nat) : List Nat :=
  let encoded := utf8Encode text
  if encoded.length ≤ limit then text
  else utf8DecodeIgnore (encoded.take limit)

theorem utf8EncodeChar_length (c : Nat) : (utf8EncodeChar c).length = utf8Size c := by
  unfold utf8EncodeChar utf8Size
  split_ifs <;> simp

theorem utf8Encode_cons (c : Nat) (s : List Nat) :
    utf8Encode (c :: s) = utf8EncodeChar c ++ utf8Encode s := by
  simp [utf8Encode]

/-- A decoded code point re-encodes in exactly the bytes consumed. -/
theorem utf8Step_size (b : Nat) (bs : List Nat) (c k : Nat)
    (h : utf8Step b bs = some (c, k)) : utf8Size c = k + 1 ∧ k ≤ bs.length := by
  unfold utf8Step at h
  split_ifs at h with h1 h2 h3 h4
  · simp only [Option.some.injEq, Prod.mk.injEq] at h
    obtain ⟨rfl, rfl⟩ := h
    constructor
    · simp [utf8Size, h1]
    · omega
  · match bs, h with
    | b2 :: rest, h =>
      simp only [Bool.and_eq_true, decide_eq_true_eq] at h2
      dsimp only at h
      split_ifs at h with hc
      simp only [isCont, Bool.and_eq_true, decide_eq_true_eq] at hc
      simp only [Option.some.injEq, Prod.mk.injEq] at h
      obtain ⟨rfl, rfl⟩ := h
      refine ⟨?_, by simp⟩
      unfold utf8Size
      rw [if_neg (by omega), if_pos (by omega)]
  · match bs, h with
    | b2 :: b3 :: rest, h =>
      simp only [Bool.and_eq_true, decide_eq_true_eq] at h3
      dsimp only at h
      split_ifs at h with hc
      simp only [isCont, Bool.and_eq_true, Bool.or_eq_true, decide_eq_true_eq, ne_eq] at hc
      simp only [Option.some.injEq, Prod.mk.injEq] at h
      obtain ⟨rfl, rfl⟩ := h
      refine ⟨?_, by simp⟩
      unfold utf8Size
      have hlow : 0x800 ≤ (b - 0xE0) * 4096 + (b2 - 0x80) * 64 + (b3 - 0x80) := by
        rcases hc.2.1 with hb | hb <;> omega
      rw [if_neg (by omega), if_neg (by omega), if_pos (by omega)]
  · match bs, h with
    | b2 :: b3 :: b4 :: rest, h =>
      simp only [Bool.and_eq_true, decide_eq_true_eq] at h4
      dsimp only at h
      split_ifs at h with hc
      simp only [isCont, Bool.and_eq_true, Bool.or_eq_true, decide_eq_true_eq, ne_eq] at hc
      simp only [Option.some.injEq, Prod.mk.injEq] at h
      obtain ⟨rfl, rfl⟩ := h
      refine ⟨?_, by simp⟩
      unfold utf8Size
      have hlow : 0x10000 ≤
          (b - 0xF0) * 262144 + (b2 - 0x80) * 4096 + (b3 - 0x80) * 64 + (b4 - 0x80) := by
        rcases hc.2.1 with hb | hb <;> omega
      rw [if_neg (by omega), if_neg (by omega), if_neg (by omega)]

theorem utf8Encode_decode_le (B : List Nat) :
    (utf8Encode (utf8DecodeIgnore B)).length ≤ B.length := by
  induction B using utf8DecodeIgnore.induct with
  | case1 =>
    rw [utf8DecodeIgnore]
    simp [utf8Encode]
  | case2 b bs c k hstep ih =>
    rw [utf8DecodeIgnore, hstep]
    obtain ⟨hsz, hk⟩ := utf8Step_size b bs c k hstep
    rw [utf8Encode_cons]
    have hdrop : (bs.drop k).length = bs.length - k := List.length_drop k bs
    simp only [List.length_append, List.length_cons, utf8EncodeChar_length, hsz]
    omega
  | case3 b bs hstep ih =>
    rw [utf8DecodeIgnore, hstep]
    calc (utf8Encode (utf8DecodeIgnore bs)).length ≤ bs.length := ih
      _ ≤ (b :: bs).length := by simp

theorem cap_text_bytes_le (text : List Nat) (limit : Nat) :
    (utf8Encode (cap_text_bytes text limit)).length ≤ limit := by
  unfold cap_text_bytes
  dsimp only
  split_ifs with h
  · exact h
  · calc (utf8Encode (utf8DecodeIgnore ((utf8Encode text).take limit))).length
        ≤ ((utf8Encode text).take limit).length := utf8Encode_decode_le _
      _ ≤ limit := by simp [List.length_take]

theorem cap_text_bytes_fits (text : List Nat) (limit : Nat)
    (h : (utf8Encode text).length ≤ limit) : cap_text_bytes text limit = text := by
  unfold cap_text_bytes
  dsimp only
  rw [if_pos h]

/-- The `tools/call` result assembled by `_dispatch_jsonrpc`
(`mcp/server.py` lines 1258-1276) and `_dispatch_stdio` (lines
1325-1332): `content[0].text` is the byte-capped JSON serialization of
the tool result, while `structuredContent` carries the same
serialization uncapped. -/
structure ToolsCallResult where
  contentText : List Nat
  structuredContent : List Nat
deriving DecidableEq, Repr

def tools_call_result (resultJson : List Nat) (maxOutputBytes : Nat) : ToolsCallResult :=
  { contentText := cap_text_bytes resultJson maxOutputBytes
    structuredContent := resultJson }

/-- C3 counterexample: with `max_output_bytes = 4` and a tool result
whose JSON serialization is 10 ASCII bytes, the result returned to the
client carries those 10 bytes uncapped in `structuredContent`, so the
bytes of the tool result exceed `max_output_bytes` — the claimed bound
on "the bytes of the tool result returned to the client" is false. -/
theorem tools_call_result_exceeds_cap :
    (tools_call_result (List.replicate 10 97) 4).structuredContent = List.replicate 10 97 ∧
    (utf8Encode (List.replicate 10 97)).length = 10 ∧
    ¬ (utf8Encode ((tools_call_result (List.replicate 10 97) 4).structuredContent)).length ≤ 4 := by
  refine ⟨rfl, by decide, by decide⟩

/-- C3 (amended): the `content[].text` field of every `tools/call`
result — the JSON-serialized tool result clamped by `cap_text_bytes`,
which truncates the UTF-8 encoding at `max_output_bytes` and re-decodes
ignoring errors, and which is also applied to every log or capsule
snippet — is at most `max_output_bytes` bytes, and is the unchanged
serialization whenever it already fits; the `structuredContent` field,
however, carries the serialization uncapped, so the full result may
exceed `max_output_bytes`. -/
theorem tools_call_text_capped (resultJson : List Nat) (maxOutputBytes : Nat) :
    (tools_call_result resultJson maxOutputBytes).contentText =
      cap_text_bytes resultJson maxOutputBytes ∧
    (utf8Encode ((tools_call_result resultJson maxOutputBytes).contentText)).length
      ≤ maxOutputBytes ∧
    ((utf8Encode resultJson).length ≤ maxOutputBytes →
      (tools_call_result resultJson maxOutputBytes).contentText = resultJson) ∧
    (tools_call_result resultJson maxOutputBytes).structuredContent = resultJson :=
  ⟨rfl, cap_text_bytes_le resultJson maxOutputBytes,
   fun h => cap_text_bytes_fits resultJson maxOutputBytes h, rfl⟩

theorem tools_call_text_capped_witness :
    (utf8Encode (List.replicate 3 97)).length ≤ 32000 ∧
    (tools_call_result (List.replicate 3 97) 32000).contentText = List.replicate 3 97 :=
  ⟨by decide, (tools_call_text_capped (List.replicate 3 97) 32000).2.2.1 (by decide)⟩

/-! ## C4: JSON state-file writers and crash safety

The writers in the source are of two shapes:
* plain `path.write_text(json.dumps(...))` — `save_registry`
  (`dashboard/registry.py` line 48), `save_service_state`
  (`dashboard/service.py` line 28) and `_save_state` for the global
  per-run cloud state (`tools/cloud/remote.py` line 45);
* `tempfile.mkstemp` in the target directory, write, `os.replace` —
  `save_batch_state` (`tools/cloud/batch.py` lines 44-49) and the
  project-local `_save` (`tools/cloud/state.py` lines 40-53).

A write is modelled as a sequence of filesystem steps; a crash may stop
the sequence after any prefix, and may additionally persist any prefix
of the data of the step in progress. -/

inductive FsOp where
  | createTemp : FsOp
  | writeTemp : String → FsOp
  | renameTempOverTarget : FsOp
  | truncateTarget : FsOp
  | writeTarget : String → FsOp
deriving DecidableEq, Repr

structure FileState where
  target : Option String
  temp : Option String
deriving DecidableEq, Repr

def applyOp (st : FileState) : FsOp → FileState
  | .createTemp => { st with temp := some "" }
  | .writeTemp s => { st with temp := some ((st.temp.getD "") ++ s) }
  | .renameTempOverTarget => { target := st.temp, temp := none }
  | .truncateTarget => { st with target := some "" }
  | .writeTarget s => { st with target := some ((st.target.getD "") ++ s) }

def runOps (init : FileState) (ops : List FsOp) : FileState := ops.foldl applyOp init

/-- The partially-persisted variants of one step: a crash mid-write can
leave any prefix of the data; creation, truncation and rename are single
atomic syscalls. -/
def partialWrites : FsOp → List FsOp
  | .writeTemp s => (List.range (s.toList.length + 1)).map
      (fun i => FsOp.writeTemp (String.mk (s.toList.take i)))
  | .writeTarget s => (List.range (s.toList.length + 1)).map
      (fun i => FsOp.writeTarget (String.mk (s.toList.take i)))
  | _ => []

/-- Every file state reachable by crashing at any point of a write. -/
def crashStates (init : FileState) (ops : List FsOp) : List FileState :=
  ((List.range (ops.length + 1)).map (fun k => runOps init (ops.take k))) ++
  ((List.range ops.length).flatMap (fun k =>
    (partialWrites (ops.getD k .renameTempOverTarget)).map
      (fun p => applyOp (runOps init (ops.take k)) p)))

/-- `path.write_text(content)`: open for writing truncates the target,
then the data is written in place. -/
def plainWriteTrace (content : String) : List FsOp :=
  [.truncateTarget, .writeTarget content]

/-- `mkstemp` + write + `os.replace`: the temp file is created in the
target's directory, filled, and renamed over the target. -/
def atomicWriteTrace (content : String) : List FsOp :=
  [.createTemp, .writeTemp content, .renameTempOverTarget]

/-- `save_registry` (`dashboard/registry.py` lines 46-48). -/
def save_registry_trace (content : String) : List FsOp := plainWriteTrace content

/-- `save_service_state` (`dashboard/service.py` lines 26-28). -/
def save_service_state_trace (content : String) : List FsOp := plainWriteTrace content

/-- `_save_state` for the global cloud run state
(`tools/cloud/remote.py` lines 43-46). -/
def save_state_trace (content : String) : List FsOp := plainWriteTrace content

/-- `save_batch_state` (`tools/cloud/batch.py` lines 42-56). -/
def save_batch_state_trace (content : String) : List FsOp := atomicWriteTrace content

/-- Project-local `_save` of `.kit/cloud-state.json`
(`tools/cloud/state.py` lines 38-53). -/
def project_state_save_trace (content : String) : List FsOp := atomicWriteTrace content

def c4init : FileState := { target := some "[]", temp := none }

def c4crash : FileState := { target := some "", temp := none }

/-- C4 counterexample: the registry, service-state and global cloud-state
writers are plain truncate-then-write; a crash between the truncation
and the write leaves an empty target file — neither the old nor the new
contents (and not parseable JSON) — so "every write of a JSON state file
is atomic via a temp file renamed over the target" is false for these
three writers. -/
theorem plain_state_writers_not_crash_safe :
    c4crash ∈ crashStates c4init (save_registry_trace "[1]") ∧
    c4crash ∈ crashStates c4init (save_service_state_trace "[1]") ∧
    c4crash ∈ crashStates c4init (save_state_trace "[1]") ∧
    c4crash.target = some "" ∧
    c4init.target = some "[]" ∧
    ¬(c4crash.target = c4init.target ∨ c4crash.target = some "[1]") := by
  refine ⟨?_, ?_, ?_, rfl, rfl, ?_⟩ <;> decide

theorem atomic_trace_crash_safe (init : FileState) (content : String) (st : FileState)
    (hmem : st ∈ crashStates init (atomicWriteTrace content)) :
    st.target = init.target ∨ st.target = some content := by
  simp only [crashStates, atomicWriteTrace, List.mem_append, List.mem_map,
    List.mem_flatMap, List.mem_range, List.length_cons, List.length_nil] at hmem
  rcases hmem with ⟨k, hk, rfl⟩ | ⟨k, hk, p, hp, rfl⟩
  · interval_cases k <;> simp [runOps, applyOp]
  · interval_cases k <;>
      simp only [List.getD, List.get?, partialWrites, List.mem_map, List.mem_range,
        Option.getD_some] at hp
    · rcases hp
    · obtain ⟨i, hi, rfl⟩ := hp
      simp [runOps, applyOp]
    · rcases hp

/-- C4 (amended): the batch-state writer and the project-local
cloud-state writer are atomic — a temp file is created in the target's
directory, written, and renamed over the target, so after a crash at any
point the target file holds either the old or the new contents (hence
stays parseable JSON); the registry, service-state, and global cloud-run
state writers instead use a plain truncate-then-write, which is not
crash safe. -/
theorem atomic_state_writers_crash_safe (init : FileState) (content : String)
    (st : FileState) :
    (st ∈ crashStates init (save_batch_state_trace content) →
      st.target = init.target ∨ st.target = some content) ∧
    (st ∈ crashStates init (project_state_save_trace content) →
      st.target = init.target ∨ st.target = some content) :=
  ⟨fun h => atomic_trace_crash_safe init content st h,
   fun h => atomic_trace_crash_safe init content st h⟩

theorem atomic_state_writers_crash_safe_witness :
    runOps c4init (save_batch_state_trace "[1]") ∈
      crashStates c4init (save_batch_state_trace "[1]") ∧
    ((runOps c4init (save_batch_state_trace "[1]")).target = c4init.target ∨
      (runOps c4init (save_batch_state_trace "[1]")).target = some "[1]") :=
  ⟨by decide,
   (atomic_state_writers_crash_safe c4init "[1]"
      (runOps c4init (save_batch_state_trace "[1]"))).1 (by decide)⟩

/-! ## C5: reindex (`dashboard/indexing.py` lines 242-294)

The index store is modelled relationally: the `projects`, `runs` and
`requests` tables as row lists in insertion order.  SQL upserts become
in-place replacement on key match, append otherwise; deletes become
filters.  A project's `runs/` directory scan is an oracle input (a list
of per-run parse inputs, or `none` when `runs_dir.is_dir()` fails). -/

structure ProjectRow where
  project_id : String
  label : String
  orchestration_kit_root : String
  project_root : String
  registered_at : Option String := none
  updated_at : Option String := none
deriving DecidableEq, Repr

structure Db where
  projects : List ProjectRow
  runs : List RunRecord
  requests : List ReqRecord
deriving DecidableEq, Repr

/-- One run directory under `runs/`: its name and parse inputs. -/
structure RunInput where
  runRootName : String
  fs : Fs
  lines : List Line

/-- One prepared project handed to `index_projects`: the registry row it
upserts plus the filesystem scan of its `runs/` directory. -/
structure ProjectEntry where
  row : ProjectRow
  runsDir : Option (List RunInput)

def ProjectEntry.project_id (p : ProjectEntry) : String := p.row.project_id

/-- The project sub-dict `parse_run` consumes. -/
def ProjectEntry.parseProject (p : ProjectEntry) : Project :=
  { project_id := p.row.project_id
    orchestration_kit_root := p.row.orchestration_kit_root
    project_root := p.row.project_root }

/-- `_insert_project`: `INSERT ... ON CONFLICT(project_id) DO UPDATE`
over every column. -/
def insert_project (db : Db) (p : ProjectRow) : Db :=
  if db.projects.any (fun q => q.project_id = p.project_id) then
    { db with
        projects :=
          db.projects.map (fun q => if q.project_id = p.project_id then p else q) }
  else
    { db with projects := db.projects ++ [p] }

/-- `_delete_project_rows` (`dashboard/indexing.py` lines 37-39). -/
def delete_project_rows (db : Db) (pid : String) : Db :=
  { db with
      runs := db.runs.filter (fun r => r.project_id ≠ pid)
      requests := db.requests.filter (fun q => q.project_id ≠ pid) }

/-- `DELETE FROM projects WHERE project_id = ?`. -/
def delete_project (db : Db) (pid : String) : Db :=
  { db with projects := db.projects.filter (fun q => q.project_id ≠ pid) }

/-- `_insert_run`: a plain `INSERT`. -/
def insert_run_row (db : Db) (r : RunRecord) : Db :=
  { db with runs := db.runs ++ [r] }

/-- The row-list effect of `_insert_request`'s
`INSERT ... ON CONFLICT(project_id, request_id) DO UPDATE` which sets
every column from `excluded`: replace the matching row, else append. -/
def upsert_request_rows (rows : List ReqRecord) (q : ReqRecord) : List ReqRecord :=
  if rows.any (fun x => x.project_id = q.project_id ∧ x.request_id = q.request_id) then
    rows.map (fun x =>
      if x.project_id = q.project_id ∧ x.request_id = q.request_id then q else x)
  else
    rows ++ [q]

def insert_request (db : Db) (q : ReqRecord) : Db :=
  { db with requests := upsert_request_rows db.requests q }

/-- The body of the per-project loop of `index_projects` (lines 265-283):
upsert the project row, delete the project's runs and requests, and — when
the runs directory exists — parse and reinsert every run with its
requests. -/
def indexOne (p : ProjectEntry) (db : Db) : Except Unit Db := do
  let db1 := delete_project_rows (insert_project db p.row) p.project_id
  match p.runsDir with
  | none => pure db1
  | some ris =>
    ris.foldlM (fun d ri => do
      let x ← parse_run p.parseProject ri.fs ri.runRootName ri.lines
      pure (x.2.foldl insert_request (insert_run_row d x.1))) db1

/-- The stale-project sweep (lines 252-259), over a snapshot of the
current project ids. -/
def cleanupStaleProjects (db : Db) (activeIds : List String) : Db :=
  (db.projects.map (fun q => q.project_id)).foldl
    (fun d pid =>
      if activeIds.contains pid then d
      else delete_project (delete_project_rows d pid) pid)
    db

/-- `index_projects` (`dashboard/indexing.py` lines 242-294).  The
summary dict it returns is not modelled; a parse exception aborts before
`conn.commit()`, so an `.error` result leaves the store unchanged. -/
def index_projects (db : Db) (ps : List ProjectEntry) (cleanup_stale_projects : Bool) :
    Except Unit Db :=
  let db0 := if cleanup_stale_projects then
      cleanupStaleProjects db (ps.map (fun p => p.project_id))
    else db
  ps.foldlM (fun d p => indexOne p d) db0

theorem upsertReq_project_id (l : List (String × ReqRecord)) (k : String)
    (dflt : ReqRecord) (f : ReqRecord → ReqRecord) (pid : String)
    (hl : ∀ kv ∈ l, (kv.2 : ReqRecord).project_id = pid)
    (hd : (f dflt).project_id = pid)
    (hf : ∀ q : ReqRecord, (f q).project_id = q.project_id) :
    ∀ kv ∈ upsertReq l k dflt f, kv.2.project_id = pid := by
  intro kv hkv
  unfold upsertReq at hkv
  split_ifs at hkv
  · obtain ⟨kv0, hkv0, rfl⟩ := List.mem_map.1 hkv
    by_cases hk : kv0.1 = k
    · rw [if_pos hk]
      simpa [hf kv0.2] using hl kv0 hkv0
    · rw [if_neg hk]
      exact hl kv0 hkv0
  · rcases List.mem_append.1 hkv with h | h
    · exact hl kv h
    · simp only [List.mem_singleton] at h
      subst h
      exact hd

theorem applyEvent_run_project_id (orig pid : String)
    (st : RunRecord × List (String × ReqRecord)) (ev : List (String × Json)) :
    (applyEvent orig pid st ev).1.project_id = st.1.project_id := by
  unfold applyEvent
  dsimp only
  split_ifs <;> try rfl
  all_goals (split <;> rfl)

theorem applyEvent_reqs_project_id (orig pid : String)
    (st : RunRecord × List (String × ReqRecord)) (ev : List (String × Json))
    (h : ∀ kv ∈ st.2, (kv.2 : ReqRecord).project_id = pid) :
    ∀ kv ∈ (applyEvent orig pid st ev).2, kv.2.project_id = pid := by
  unfold applyEvent
  dsimp only
  by_cases h1 : asStr (jget ev "event") = some "run_started"
  · rw [if_pos h1]; exact h
  rw [if_neg h1]
  by_cases h2 : asStr (jget ev "event") = some "phase_started"
  · rw [if_pos h2]; exact h
  rw [if_neg h2]
  by_cases h3 : asStr (jget ev "event") = some "phase_finished"
  · rw [if_pos h3]; exact h
  rw [if_neg h3]
  by_cases h4 : asStr (jget ev "event") = some "capsule_written"
  · rw [if_pos h4]; exact h
  rw [if_neg h4]
  by_cases h5 : asStr (jget ev "event") = some "manifest_written"
  · rw [if_pos h5]; exact h
  rw [if_neg h5]
  by_cases h6 : asStr (jget ev "event") = some "run_finished"
  · rw [if_pos h6]; exact h
  rw [if_neg h6]
  by_cases h7 : asStr (jget ev "event") = some "request_enqueued" ∨
      asStr (jget ev "event") = some "request_completed"
  · rw [if_pos h7]
    cases hr : asStr (jget ev "request_id") with
    | none => exact h
    | some rid =>
      dsimp only
      apply upsertReq_project_id _ _ _ _ pid h
      · dsimp only
        split_ifs <;> rfl
      · intro q
        dsimp only
        split_ifs <;> rfl
  · rw [if_neg h7]
    exact h

theorem fold_events_project_id (orig pid : String) (records : List (List (String × Json)))
    (st : RunRecord × List (String × ReqRecord)) :
    (records.foldl (applyEvent orig pid) st).1.project_id = st.1.project_id ∧
    ((∀ kv ∈ st.2, (kv.2 : ReqRecord).project_id = pid) →
      ∀ kv ∈ (records.foldl (applyEvent orig pid) st).2, kv.2.project_id = pid) := by
  induction records generalizing st with
  | nil => exact ⟨rfl, fun h => h⟩
  | cons ev rest ih =>
    refine ⟨?_, ?_⟩
    · rw [List.foldl_cons, (ih (applyEvent orig pid st ev)).1,
        applyEvent_run_project_id]
    · intro h
      rw [List.foldl_cons]
      exact (ih (applyEvent orig pid st ev)).2 (applyEvent_reqs_project_id orig pid st ev h)

theorem apply_fallbacks_project_id (fs : Fs) (r : RunRecord) :
    (apply_fallbacks fs r).project_id = r.project_id := rfl

theorem fill_from_metadata_project_id (m : List (String × Json)) (r : RunRecord) :
    (fill_from_metadata m r).project_id = r.project_id := by
  unfold fill_from_metadata
  split_ifs <;> rfl

theorem apply_experiment_name_project_id (m : List (String × Json)) (r : RunRecord) :
    (apply_experiment_name m r).project_id = r.project_id := by
  unfold apply_experiment_name
  split_ifs with h
  · rfl
  · split <;> rfl

theorem except_bind_ok {α β : Type} (e : Except Unit α) (f : α → Except Unit β) (x : β)
    (h : Except.bind e f = .ok x) : ∃ a, e = .ok a ∧ f a = .ok x := by
  cases e with
  | error u => simp [Except.bind] at h
  | ok a => exact ⟨a, rfl, by simpa [Except.bind] using h⟩

theorem apply_verdict_project_id (fs : Fs) (mf : List (String × Json)) (r r5 : RunRecord)
    (h : apply_verdict fs mf r = .ok r5) : r5.project_id = r.project_id := by
  unfold apply_verdict at h
  split at h
  · split at h
    · simp only [bind, Except.bind] at h
      obtain ⟨v, hv, hx⟩ := except_bind_ok _ _ _ h
      simp only [pure, Except.pure, Except.ok.injEq] at hx
      subst hx
      cases v <;> rfl
    · simp only [pure, Except.pure, Except.ok.injEq] at h
      subst h; rfl
  · simp only [pure, Except.pure, Except.ok.injEq] at h
    subst h; rfl

theorem parse_run_core_ids (project : Project) (fs : Fs) (rid : String) (lines : List Line)
    (x : RunRecord × List (String × ReqRecord))
    (h : parse_run_core project fs rid lines = .ok x) :
    x.1.project_id = project.project_id ∧
    ∀ kv ∈ x.2, (kv.2 : ReqRecord).project_id = project.project_id := by
  unfold parse_run_core at h
  simp only [bind, Except.bind] at h
  obtain ⟨r5, h5, hx⟩ := except_bind_ok _ _ _ h
  simp only [pure, Except.pure, Except.ok.injEq] at hx
  subst hx
  constructor
  · rw [apply_verdict_project_id _ _ _ _ h5, apply_experiment_name_project_id,
      fill_from_metadata_project_id, apply_fallbacks_project_id,
      (fold_events_project_id rid project.project_id _ _).1]
  · exact (fold_events_project_id rid project.project_id _ _).2 (by simp)

theorem parse_run_ids (project : Project) (fs : Fs) (rid : String) (lines : List Line)
    (r : RunRecord) (reqs : List ReqRecord)
    (h : parse_run project fs rid lines = .ok (r, reqs)) :
    r.project_id = project.project_id ∧
    ∀ q ∈ reqs, q.project_id = project.project_id := by
  unfold parse_run at h
  cases hc : parse_run_core project fs rid lines with
  | error e => rw [hc] at h; simp [Except.map] at h
  | ok x =>
    rw [hc] at h
    simp only [Except.map, Except.ok.injEq, Prod.mk.injEq] at h
    obtain ⟨hr, hq⟩ := h
    have hids := parse_run_core_ids project fs rid lines x hc
    constructor
    · rw [← hr]
      exact hids.1
    · intro q hmem
      rw [← hq] at hmem
      unfold finalizeReqs at hmem
      rw [List.mem_mergeSort] at hmem
      obtain ⟨kv, hkv, rfl⟩ := List.mem_map.1 hmem
      exact hids.2 kv hkv

/-- The parse results of one project's run directories. -/
def parsedRunsOf (p : ProjectEntry) : Except Unit (List (RunRecord × List ReqRecord)) :=
  match p.runsDir with
  | none => pure []
  | some ris => ris.mapM (fun ri => parse_run p.parseProject ri.fs ri.runRootName ri.lines)

/-- The run rows a project's reindex inserts. -/
def reinserted_runs (pairs : List (RunRecord × List ReqRecord)) : List RunRecord :=
  pairs.map (fun x => x.1)

/-- The request rows a project's reindex leaves behind: the per-run
request lists, upserted in order into an initially empty set. -/
def reinserted_requests (pairs : List (RunRecord × List ReqRecord)) : List ReqRecord :=
  (pairs.flatMap (fun x => x.2)).foldl upsert_request_rows []

theorem map_upsert_skip (R : List ReqRecord) (q : ReqRecord)
    (hR : ∀ x ∈ R, ¬(x.project_id = q.project_id ∧ x.request_id = q.request_id)) :
    R.map (fun x =>
      if x.project_id = q.project_id ∧ x.request_id = q.request_id then q else x) = R := by
  induction R with
  | nil => rfl
  | cons a rest ih =>
    simp only [List.map_cons, if_neg (hR a (by simp)), List.cons.injEq, true_and]
    exact ih (fun x hx => hR x (by simp [hx]))

theorem upsert_request_rows_append (R T : List ReqRecord) (q : ReqRecord)
    (hR : ∀ x ∈ R, x.project_id ≠ q.project_id) :
    upsert_request_rows (R ++ T) q = R ++ upsert_request_rows T q := by
  have hnomatch : ∀ x ∈ R, ¬(x.project_id = q.project_id ∧ x.request_id = q.request_id) :=
    fun x hx hc => hR x hx hc.1
  have hanyR : R.any (fun x =>
      decide (x.project_id = q.project_id ∧ x.request_id = q.request_id)) = false := by
    rw [List.any_eq_false]
    intro x hx
    simpa using hnomatch x hx
  unfold upsert_request_rows
  rw [List.any_append, hanyR, Bool.false_or]
  by_cases hT : T.any (fun x =>
      decide (x.project_id = q.project_id ∧ x.request_id = q.request_id)) = true
  · rw [if_pos hT, if_pos hT, List.map_append, map_upsert_skip R q hnomatch]
  · rw [if_neg hT, if_neg hT, List.append_assoc]

theorem foldl_upsert_append (pid : String) (R : List ReqRecord) (qs : List ReqRecord)
    (T : List ReqRecord) (hR : ∀ x ∈ R, x.project_id ≠ pid)
    (hqs : ∀ q ∈ qs, q.project_id = pid) :
    qs.foldl upsert_request_rows (R ++ T) = R ++ qs.foldl upsert_request_rows T := by
  induction qs generalizing T with
  | nil => rfl
  | cons q rest ih =>
    rw [List.foldl_cons, List.foldl_cons,
      upsert_request_rows_append R T q
        (fun x hx => by rw [hqs q (by simp)]; exact hR x hx)]
    exact ih _ (fun x hx => hqs x (by simp [hx]))

theorem upsert_request_rows_project_id (T : List ReqRecord) (q : ReqRecord) (pid : String)
    (hT : ∀ x ∈ T, x.project_id = pid) (hq : q.project_id = pid) :
    ∀ x ∈ upsert_request_rows T q, x.project_id = pid := by
  intro x hx
  unfold upsert_request_rows at hx
  split_ifs at hx
  · obtain ⟨x0, hx0, rfl⟩ := List.mem_map.1 hx
    split_ifs
    · exact hq
    · exact hT x0 hx0
  · rcases List.mem_append.1 hx with h | h
    · exact hT x h
    · simp only [List.mem_singleton] at h
      subst h
      exact hq

theorem foldl_upsert_project_id (pid : String) (qs T : List ReqRecord)
    (hT : ∀ x ∈ T, x.project_id = pid) (hqs : ∀ q ∈ qs, q.project_id = pid) :
    ∀ x ∈ qs.foldl upsert_request_rows T, x.project_id = pid := by
  induction qs generalizing T with
  | nil => exact hT
  | cons q rest ih =>
    rw [List.foldl_cons]
    exact ih _ (upsert_request_rows_project_id T q pid hT (hqs q (by simp)))
      (fun x hx => hqs x (by simp [hx]))

theorem foldl_insert_request_db (d : Db) (qs : List ReqRecord) :
    qs.foldl insert_request d = { d with requests := qs.foldl upsert_request_rows d.requests } := by
  induction qs generalizing d with
  | nil => rfl
  | cons q rest ih =>
    rw [List.foldl_cons, List.foldl_cons]
    exact ih _

theorem foldRuns_ok (proj : Project) (ris : List RunInput) (B S : List ReqRecord)
    (base db' : Db) (hbase_req : base.requests = B ++ S)
    (hB : ∀ q ∈ B, q.project_id ≠ proj.project_id)
    (hS : ∀ q ∈ S, q.project_id = proj.project_id)
    (h : ris.foldlM (fun d ri => do
          let x ← parse_run proj ri.fs ri.runRootName ri.lines
          pure (x.2.foldl insert_request (insert_run_row d x.1))) base = .ok db') :
    ∃ pairs, ris.mapM (fun ri => parse_run proj ri.fs ri.runRootName ri.lines) = .ok pairs ∧
      db'.projects = base.projects ∧
      db'.runs = base.runs ++ reinserted_runs pairs ∧
      db'.requests = B ++ ((pairs.flatMap (fun x => x.2)).foldl upsert_request_rows S) ∧
      (∀ r ∈ reinserted_runs pairs, r.project_id = proj.project_id) := by
  induction ris generalizing base S with
  | nil =>
    simp only [List.foldlM_nil, pure, Except.pure, Except.ok.injEq] at h
    subst h
    exact ⟨[], rfl, rfl, by simp [reinserted_runs], by simp [hbase_req], by simp [reinserted_runs]⟩
  | cons ri rest ih =>
    rw [List.foldlM_cons] at h
    simp only [bind, Except.bind] at h
    obtain ⟨d1, hd1, hrest⟩ := except_bind_ok _ _ _ h
    obtain ⟨x, hx, hd1'⟩ := except_bind_ok _ _ _ hd1
    simp only [pure, Except.pure, Except.ok.injEq] at hd1'
    subst hd1'
    obtain ⟨hxid, hxreqs⟩ := parse_run_ids proj ri.fs ri.runRootName ri.lines x.1 x.2
      (by rw [hx])
    set d1 := x.2.foldl insert_request (insert_run_row base x.1) with hd1def
    have hd1req : d1.requests = B ++ x.2.foldl upsert_request_rows S := by
      rw [hd1def, foldl_insert_request_db]
      show x.2.foldl upsert_request_rows (insert_run_row base x.1).requests =
        B ++ x.2.foldl upsert_request_rows S
      have : (insert_run_row base x.1).requests = B ++ S := hbase_req
      rw [this, foldl_upsert_append proj.project_id B x.2 S hB hxreqs]
    have hS' : ∀ q ∈ x.2.foldl upsert_request_rows S, q.project_id = proj.project_id :=
      foldl_upsert_project_id proj.project_id x.2 S hS hxreqs
    obtain ⟨pairs, hmap, hproj, hruns, hreqs, hrunids⟩ :=
      ih (x.2.foldl upsert_request_rows S) d1 hd1req hS' hrest
    refine ⟨x :: pairs, ?_, ?_, ?_, ?_, ?_⟩
    · rw [List.mapM_cons]
      simp only [bind, Except.bind]
      rw [hx, hmap]
      rfl
    · rw [hproj, hd1def, foldl_insert_request_db]
      rfl
    · rw [hruns, hd1def, foldl_insert_request_db]
      show (insert_run_row base x.1).runs ++ reinserted_runs pairs = _
      simp [insert_run_row, reinserted_runs, List.append_assoc]
    · rw [hreqs, List.flatMap_cons, List.foldl_append]
    · intro r hr
      simp only [reinserted_runs, List.map_cons, List.mem_cons] at hr
      rcases hr with rfl | hr
      · exact hxid
      · exact hrunids r (by simpa [reinserted_runs] using hr)

theorem mapM_ok_mem {α β : Type} (f : α → Except Unit β) (l : List α) (ys : List β)
    (h : l.mapM f = .ok ys) : ∀ y ∈ ys, ∃ a ∈ l, f a = .ok y := by
  induction l generalizing ys with
  | nil =>
    simp only [List.mapM_nil, pure, Except.pure, Except.ok.injEq] at h
    subst h
    simp
  | cons a rest ih =>
    rw [List.mapM_cons] at h
    simp only [bind, Except.bind] at h
    obtain ⟨x, hx, h2⟩ := except_bind_ok _ _ _ h
    obtain ⟨xs, hxs, h3⟩ := except_bind_ok _ _ _ h2
    simp only [pure, Except.pure, Except.ok.injEq] at h3
    subst h3
    intro y hy
    rcases List.mem_cons.1 hy with rfl | hy
    · exact ⟨a, by simp, hx⟩
    · obtain ⟨a', ha', hfa'⟩ := ih xs hxs y hy
      exact ⟨a', by simp [ha'], hfa'⟩

theorem indexOne_ok (p : ProjectEntry) (db db' : Db) (h : indexOne p db = .ok db') :
    ∃ pairs, parsedRunsOf p = .ok pairs ∧
      db'.projects = (insert_project db p.row).projects ∧
      db'.runs = db.runs.filter (fun r => r.project_id ≠ p.project_id) ++
        reinserted_runs pairs ∧
      db'.requests = db.requests.filter (fun q => q.project_id ≠ p.project_id) ++
        reinserted_requests pairs ∧
      (∀ r ∈ reinserted_runs pairs, r.project_id = p.project_id) ∧
      (∀ q ∈ reinserted_requests pairs, q.project_id = p.project_id) := by
  unfold indexOne at h
  cases hdir : p.runsDir with
  | none =>
    rw [hdir] at h
    simp only [pure, Except.pure, Except.ok.injEq] at h
    subst h
    refine ⟨[], by simp [parsedRunsOf, hdir, pure, Except.pure], rfl, ?_, ?_, by simp [reinserted_runs],
      by simp [reinserted_requests]⟩
    · simp [delete_project_rows, insert_project, reinserted_runs]
      split_ifs <;> rfl
    · simp [delete_project_rows, insert_project, reinserted_requests]
      split_ifs <;> rfl
  | some ris =>
    rw [hdir] at h
    set db1 := delete_project_rows (insert_project db p.row) p.project_id with hdb1
    have hB : ∀ q ∈ db1.requests, q.project_id ≠ p.project_id := by
      intro q hq
      rw [hdb1] at hq
      simp only [delete_project_rows, List.mem_filter, decide_eq_true_eq] at hq
      simpa using hq.2
    obtain ⟨pairs, hmap, hproj, hruns, hreqs, hrunids⟩ :=
      foldRuns_ok p.parseProject ris db1.requests [] db1 db' (by simp) hB (by simp) h
    have hflat : ∀ q ∈ pairs.flatMap (fun x => x.2), q.project_id = p.project_id := by
      intro q hq
      obtain ⟨pair, hpair, hqin⟩ := List.mem_flatMap.1 hq
      obtain ⟨ri, _, hok⟩ := mapM_ok_mem _ ris pairs hmap pair hpair
      exact (parse_run_ids p.parseProject ri.fs ri.runRootName ri.lines pair.1 pair.2
        (by rw [hok])).2 q hqin
    refine ⟨pairs, ?_, ?_, ?_, ?_, ?_, ?_⟩
    · simp only [parsedRunsOf, hdir]
      exact hmap
    · rw [hproj, hdb1]
      rfl
    · rw [hruns, hdb1]
      simp only [delete_project_rows]
      have hip : (insert_project db p.row).runs = db.runs := by
        unfold insert_project; split_ifs <;> rfl
      rw [hip]
    · rw [hreqs, hdb1]
      simp only [delete_project_rows]
      have hip : (insert_project db p.row).requests = db.requests := by
        unfold insert_project; split_ifs <;> rfl
      rw [hip]
      rfl
    · exact hrunids
    · exact foldl_upsert_project_id p.project_id _ [] (by simp) hflat

theorem filter_eq_of_ne {α : Type} (f : α → String) (l : List α) (pid ppid : String)
    (hne : pid ≠ ppid) :
    (l.filter (fun x => f x ≠ ppid)).filter (fun x => f x = pid) =
      l.filter (fun x => f x = pid) := by
  induction l with
  | nil => rfl
  | cons a t ih =>
    by_cases h1 : f a = ppid
    · have h2 : ¬(f a = pid) := fun hh => hne (hh.symm.trans h1)
      have lhs : (a :: t).filter (fun x => f x ≠ ppid) = t.filter (fun x => f x ≠ ppid) := by
        rw [List.filter_cons, if_neg (by simp [h1])]
      rw [lhs, ih, List.filter_cons, if_neg (by simpa using h2)]
    · have lhs : (a :: t).filter (fun x => f x ≠ ppid) =
          a :: t.filter (fun x => f x ≠ ppid) := by
        rw [List.filter_cons, if_pos (by simpa using h1)]
      rw [lhs, List.filter_cons, List.filter_cons]
      by_cases h2 : f a = pid
      · rw [if_pos (by simpa using h2), if_pos (by simpa using h2), ih]
      · rw [if_neg (by simpa using h2), if_neg (by simpa using h2), ih]

theorem filter_all_eq {α : Type} (f : α → String) (l : List α) (pid : String)
    (h : ∀ x ∈ l, f x = pid) : l.filter (fun x => f x = pid) = l :=
  List.filter_eq_self.2 (fun a ha => by simp [h a ha])

theorem filter_all_ne {α : Type} (f : α → String) (l : List α) (pid ppid : String)
    (hne : pid ≠ ppid) (h : ∀ x ∈ l, f x = ppid) :
    l.filter (fun x => f x = pid) = [] := by
  induction l with
  | nil => rfl
  | cons a t ih =>
    have h2 : ¬(f a = pid) := fun hh => hne (hh ▸ (h a (by simp)) ▸ rfl)
    rw [List.filter_cons, if_neg (by simpa using h2)]
    exact ih (fun x hx => h x (by simp [hx]))

theorem upsert_row_filter_ne (l : List ProjectRow) (p : ProjectRow) (pid : String)
    (hne : pid ≠ p.project_id) :
    (l.map (fun q => if q.project_id = p.project_id then p else q)).filter
      (fun q => q.project_id = pid) = l.filter (fun q => q.project_id = pid) := by
  induction l with
  | nil => rfl
  | cons a t ih =>
    by_cases ha : a.project_id = p.project_id
    · have h2 : ¬(p.project_id = pid) := fun hh => hne hh.symm
      have h3 : ¬(a.project_id = pid) := fun hh => hne (hh.symm.trans ha)
      rw [List.map_cons, if_pos ha, List.filter_cons, if_neg (by simpa using h2),
        List.filter_cons, if_neg (by simpa using h3), ih]
    · rw [List.map_cons, if_neg ha, List.filter_cons, List.filter_cons]
      by_cases h2 : a.project_id = pid
      · rw [if_pos (by simpa using h2), if_pos (by simpa using h2), ih]
      · rw [if_neg (by simpa using h2), if_neg (by simpa using h2), ih]

theorem insert_project_filter_ne (db : Db) (p : ProjectRow) (pid : String)
    (hne : pid ≠ p.project_id) :
    (insert_project db p).projects.filter (fun q => q.project_id = pid) =
      db.projects.filter (fun q => q.project_id = pid) := by
  unfold insert_project
  split_ifs with hany
  · exact upsert_row_filter_ne db.projects p pid hne
  · show (db.projects ++ [p]).filter (fun q => q.project_id = pid) = _
    have h2 : ¬(p.project_id = pid) := fun hh => hne (hh ▸ rfl)
    simp [List.filter_append, h2]

theorem upsert_row_id_present (l : List ProjectRow) (p q : ProjectRow) (hq : q ∈ l) :
    ∃ q', q' ∈ l.map (fun x => if x.project_id = p.project_id then p else x) ∧
      q'.project_id = q.project_id := by
  by_cases h : q.project_id = p.project_id
  · refine ⟨p, List.mem_map.2 ⟨q, hq, by rw [if_pos h]⟩, h.symm⟩
  · exact ⟨q, List.mem_map.2 ⟨q, hq, by rw [if_neg h]⟩, rfl⟩

theorem insert_project_id_present (db : Db) (p : ProjectRow) (q : ProjectRow)
    (hq : q ∈ db.projects) :
    ∃ q', q' ∈ (insert_project db p).projects ∧ q'.project_id = q.project_id := by
  unfold insert_project
  split_ifs with hany
  · exact upsert_row_id_present db.projects p q hq
  · exact ⟨q, by simp [hq], rfl⟩

theorem indexOne_preserves (p : ProjectEntry) (db db' : Db) (h : indexOne p db = .ok db')
    (pid : String) (hne : pid ≠ p.project_id) :
    db'.projects.filter (fun q => q.project_id = pid) =
      db.projects.filter (fun q => q.project_id = pid) ∧
    db'.runs.filter (fun r => r.project_id = pid) =
      db.runs.filter (fun r => r.project_id = pid) ∧
    db'.requests.filter (fun q => q.project_id = pid) =
      db.requests.filter (fun q => q.project_id = pid) := by
  obtain ⟨pairs, hmap, hproj, hruns, hreqs, hrids, hqids⟩ := indexOne_ok p db db' h
  refine ⟨?_, ?_, ?_⟩
  · rw [hproj]
    exact insert_project_filter_ne db p.row pid hne
  · rw [hruns, List.filter_append,
      filter_eq_of_ne (fun r : RunRecord => r.project_id) db.runs pid p.project_id hne,
      filter_all_ne (fun r : RunRecord => r.project_id) _ pid p.project_id hne hrids,
      List.append_nil]
  · rw [hreqs, List.filter_append,
      filter_eq_of_ne (fun q : ReqRecord => q.project_id) db.requests pid p.project_id hne,
      filter_all_ne (fun q : ReqRecord => q.project_id) _ pid p.project_id hne hqids,
      List.append_nil]

theorem indexOne_id_present (p : ProjectEntry) (db db' : Db) (h : indexOne p db = .ok db')
    (q : ProjectRow) (hq : q ∈ db.projects) :
    ∃ q', q' ∈ db'.projects ∧ q'.project_id = q.project_id := by
  obtain ⟨pairs, hmap, hproj, hruns, hreqs, hrids, hqids⟩ := indexOne_ok p db db' h
  rw [hproj]
  exact insert_project_id_present db p.row q hq

theorem filter_of_filter_ne_self {α : Type} (f : α → String) (l : List α) (pid : String) :
    (l.filter (fun x => f x ≠ pid)).filter (fun x => f x = pid) = [] := by
  induction l with
  | nil => rfl
  | cons a t ih =>
    rw [List.filter_cons]
    by_cases h : f a = pid
    · rw [if_neg (by simp [h])]
      exact ih
    · rw [if_pos (by simpa using h), List.filter_cons, if_neg (by simpa using h)]
      exact ih

/-- C5: `reindex` with `cleanup_stale=false` removes no project outside
the given list and leaves their runs and requests rows unchanged — the
set of indexed projects never shrinks; for each listed project it
deletes and reinserts exactly that project's runs and requests (given
distinct listed ids); stale-project deletion is gated on
`cleanup_stale=true` and never happens here. -/
theorem index_projects_no_cleanup_frame (db : Db) (ps : List ProjectEntry) (db' : Db)
    (h : index_projects db ps false = .ok db') :
    (∀ q ∈ db.projects, ∃ q', q' ∈ db'.projects ∧ q'.project_id = q.project_id) ∧
    (∀ pid, pid ∉ ps.map ProjectEntry.project_id →
      db'.projects.filter (fun q => q.project_id = pid) =
        db.projects.filter (fun q => q.project_id = pid) ∧
      db'.runs.filter (fun r => r.project_id = pid) =
        db.runs.filter (fun r => r.project_id = pid) ∧
      db'.requests.filter (fun q => q.project_id = pid) =
        db.requests.filter (fun q => q.project_id = pid)) ∧
    ((ps.map ProjectEntry.project_id).Nodup →
      ∀ p ∈ ps, ∀ pairs, parsedRunsOf p = .ok pairs →
        db'.runs.filter (fun r => r.project_id = p.project_id) = reinserted_runs pairs ∧
        db'.requests.filter (fun q => q.project_id = p.project_id) =
          reinserted_requests pairs) := by
  unfold index_projects at h
  simp only [Bool.false_eq_true, if_false] at h
  induction ps generalizing db with
  | nil =>
    simp only [List.foldlM_nil, pure, Except.pure, Except.ok.injEq] at h
    subst h
    exact ⟨fun q hq => ⟨q, hq, rfl⟩, fun pid _ => ⟨rfl, rfl, rfl⟩, by simp⟩
  | cons p rest ih =>
    rw [List.foldlM_cons] at h
    simp only [bind, Except.bind] at h
    obtain ⟨d1, h1, h2⟩ := except_bind_ok _ _ _ h
    obtain ⟨ihpresent, ihframe, ihlisted⟩ := ih d1 h2
    refine ⟨?_, ?_, ?_⟩
    · intro q hq
      obtain ⟨q', hq', hid⟩ := indexOne_id_present p db d1 h1 q hq
      obtain ⟨q'', hq'', hid2⟩ := ihpresent q' hq'
      exact ⟨q'', hq'', hid2.trans hid⟩
    · intro pid hpid
      simp only [List.map_cons, List.mem_cons] at hpid
      push_neg at hpid
      obtain ⟨hne, hnot⟩ := hpid
      obtain ⟨f1, f2, f3⟩ := ihframe pid hnot
      obtain ⟨g1, g2, g3⟩ := indexOne_preserves p db d1 h1 pid hne
      exact ⟨f1.trans g1, f2.trans g2, f3.trans g3⟩
    · intro hnodup p0 hp0 pairs hpairs
      simp only [List.map_cons, List.nodup_cons] at hnodup
      obtain ⟨hheadnot, hrestnodup⟩ := hnodup
      rcases List.mem_cons.1 hp0 with rfl | hp0rest
      · obtain ⟨pairs0, hmap0, hproj0, hruns0, hreqs0, hrids0, hqids0⟩ :=
          indexOne_ok p0 db d1 h1
        rw [hpairs] at hmap0
        obtain rfl : pairs = pairs0 := by
          simpa using hmap0
        have hframe1 := ihframe p0.project_id (by simpa using hheadnot)
        constructor
        · rw [hframe1.2.1, hruns0, List.filter_append,
            filter_of_filter_ne_self (fun r : RunRecord => r.project_id) db.runs p0.project_id,
            List.nil_append,
            filter_all_eq (fun r : RunRecord => r.project_id) _ p0.project_id hrids0]
        · rw [hframe1.2.2, hreqs0, List.filter_append,
            filter_of_filter_ne_self (fun q : ReqRecord => q.project_id) db.requests p0.project_id,
            List.nil_append,
            filter_all_eq (fun q : ReqRecord => q.project_id) _ p0.project_id hqids0]
      · exact ihlisted hrestnodup p0 hp0rest pairs hpairs

def c5_db0 : Db :=
  { projects := [{ project_id := "other", label := "O",
                   orchestration_kit_root := "/k2", project_root := "/p2" }]
    runs := [{ project_id := "other", run_id := "R9", status := some "ok" }]
    requests := [{ project_id := "other", request_id := "rq-1" }] }

def c5_ps : List ProjectEntry :=
  [{ row := { project_id := "p1", label := "P1",
              orchestration_kit_root := "/k", project_root := "/p" }
     runsDir := some [] }]

def c5_db_out : Db :=
  match index_projects c5_db0 c5_ps false with
  | .ok d => d
  | .error _ => c5_db0

theorem index_projects_no_cleanup_frame_witness :
    index_projects c5_db0 c5_ps false = .ok c5_db_out ∧
    (∀ q ∈ c5_db0.projects, ∃ q', q' ∈ c5_db_out.projects ∧ q'.project_id = q.project_id) :=
  ⟨rfl, (index_projects_no_cleanup_frame c5_db0 c5_ps c5_db_out rfl).1⟩

/-! ## C6: request events and the requests-table upsert -/

/-- A `request_enqueued` event line. -/
def enqEvent (rq ts : String) : Line :=
  Line.val (Json.obj [("event", Json.str "request_enqueued"), ("request_id", Json.str rq),
                      ("ts", Json.str ts)])

/-- A `request_completed` event line carrying a status. -/
def compEvent (rq ts st : String) : Line :=
  Line.val (Json.obj [("event", Json.str "request_completed"), ("request_id", Json.str rq),
                      ("ts", Json.str ts), ("status", Json.str st)])

/-- The request record the parser folds out of an enqueue/completion
pair for `rq` under project `projA` and run `R1`. -/
def c6rec (rq ts1 ts2 st : String) : ReqRecord :=
  { project_id := projA.project_id
    request_id := rq
    parent_run_id := some "R1"
    status := some st
    enqueued_ts := some ts1
    completed_ts := some ts2 }

theorem countP_map_upsert (T : List ReqRecord) (q : ReqRecord) :
    (T.map (fun x =>
        if x.project_id = q.project_id ∧ x.request_id = q.request_id then q else x)).countP
      (fun x => decide (x.project_id = q.project_id ∧ x.request_id = q.request_id)) =
    T.countP (fun x => decide (x.project_id = q.project_id ∧ x.request_id = q.request_id)) := by
  induction T with
  | nil => rfl
  | cons a t ih =>
    rw [List.map_cons, List.countP_cons, List.countP_cons, ih]
    by_cases h : a.project_id = q.project_id ∧ a.request_id = q.request_id
    · rw [if_pos h]
      simp [h]
    · rw [if_neg h]

theorem upsert_request_rows_exactly_one (T : List ReqRecord) (q : ReqRecord)
    (hT : T.countP
      (fun x => decide (x.project_id = q.project_id ∧ x.request_id = q.request_id)) ≤ 1) :
    (upsert_request_rows T q).countP
      (fun x => decide (x.project_id = q.project_id ∧ x.request_id = q.request_id)) = 1 ∧
    ∀ x ∈ upsert_request_rows T q,
      (x.project_id = q.project_id ∧ x.request_id = q.request_id) → x = q := by
  unfold upsert_request_rows
  split_ifs with hany
  · constructor
    · rw [countP_map_upsert]
      have hpos : 0 < T.countP
          (fun x => decide (x.project_id = q.project_id ∧ x.request_id = q.request_id)) := by
        rw [List.countP_pos_iff]
        obtain ⟨x, hx, hkey⟩ := List.any_eq_true.1 hany
        exact ⟨x, hx, hkey⟩
      omega
    · intro x hx hkey
      obtain ⟨x0, hx0, rfl⟩ := List.mem_map.1 hx
      by_cases h : x0.project_id = q.project_id ∧ x0.request_id = q.request_id
      · rw [if_pos h]
      · rw [if_neg h] at hkey ⊢
        exact absurd hkey h
  · have hall : ∀ x ∈ T, ¬(x.project_id = q.project_id ∧ x.request_id = q.request_id) := by
      intro x hx hc
      exact hany (List.any_eq_true.2 ⟨x, hx, by simpa using hc⟩)
    have hzero : T.countP
        (fun x => decide (x.project_id = q.project_id ∧ x.request_id = q.request_id)) = 0 := by
      rw [List.countP_eq_zero]
      intro x hx
      simpa using hall x hx
    constructor
    · rw [List.countP_append, hzero, List.countP_cons]
      simp
    · intro x hx hkey
      rcases List.mem_append.1 hx with h | h
      · exact absurd hkey (hall x h)
      · simpa using h

/-- A completion event that also carries a response path. -/
def compEventFull : Line :=
  Line.val (Json.obj [("event", Json.str "request_completed"),
                      ("request_id", Json.str "rq-1"),
                      ("ts", Json.str "2026-01-01T01:00:00Z"),
                      ("status", Json.str "ok"),
                      ("response_path", Json.str "interop/responses/rq-1.json")])

/-- The stored row after indexing an enqueue + completion stream. -/
def c6row : ReqRecord :=
  { project_id := projA.project_id
    request_id := "rq-1"
    parent_run_id := some "R1"
    status := some "ok"
    response_path := some "interop/responses/rq-1.json"
    enqueued_ts := some "2026-01-01T00:00:00Z"
    completed_ts := some "2026-01-01T01:00:00Z" }

/-- The record parsed later from a stream holding only the enqueue:
`status`, `completed_ts` and `response_path` are NULL. -/
def c6newRec : ReqRecord :=
  { project_id := projA.project_id
    request_id := "rq-1"
    parent_run_id := some "R1"
    enqueued_ts := some "2026-01-01T00:00:00Z" }

/-- C6 counterexample: `_insert_request`'s conflict clause sets every
column from `excluded`, with no COALESCE — upserting a record whose
`status` and `response_path` are NULL over a row holding non-NULL values
overwrites them with NULL, so "the indexer's upsert COALESCing only
non-NULL values" is false. -/
theorem insert_request_no_coalesce :
    (parse_run projA fsEmpty "R1"
        [enqEvent "rq-1" "2026-01-01T00:00:00Z", compEventFull]).map (fun x => x.2) =
      .ok [c6row] ∧
    (parse_run projA fsEmpty "R1" [enqEvent "rq-1" "2026-01-01T00:00:00Z"]).map
      (fun x => x.2) = .ok [c6newRec] ∧
    c6row.status = some "ok" ∧
    c6row.response_path = some "interop/responses/rq-1.json" ∧
    c6newRec.status = none ∧
    c6newRec.response_path = none ∧
    upsert_request_rows [c6row] c6newRec = [c6newRec] := by
  refine ⟨?_, ?_, by decide, by decide, by decide, by decide, by decide⟩
  · simp [parse_run, parse_run_core, Except.map, bind, Except.bind, pure, Except.pure,
      parse_jsonl, applyEvent, jget, asStr, asInt, upsertReq, pyOr, apply_fallbacks,
      manifestFull, fill_from_metadata, apply_experiment_name, apply_verdict, deriveStatus,
      finalizeReqs, fsEmpty, projA, c6row, enqEvent, compEventFull, asObj, asArr]
  · simp [parse_run, parse_run_core, Except.map, bind, Except.bind, pure, Except.pure,
      parse_jsonl, applyEvent, jget, asStr, asInt, upsertReq, pyOr, apply_fallbacks,
      manifestFull, fill_from_metadata, apply_experiment_name, apply_verdict, deriveStatus,
      finalizeReqs, fsEmpty, projA, c6newRec, enqEvent, asObj, asArr]

/-- C6 (amended): an event stream with a `request_enqueued` and a
`request_completed` for the same `request_id` folds into exactly one
request record whose `status` is the completion status, `enqueued_ts`
from the enqueue and `completed_ts` from the completion; a second
completion leaves one record with the latest status; upserting the
record into a table holding at most one row for that key leaves exactly
one row, equal to the record — the upsert overwrites every column with
the new record's values (last-write-wins) rather than COALESCing. -/
theorem request_events_exactly_one_row (rq ts1 ts2 ts3 st st2 : String)
    (T : List ReqRecord) (h1 : ts1 ≠ "") (h2 : ts2 ≠ "") (h3 : ts3 ≠ "")
    (hT : T.countP (fun x =>
      decide (x.project_id = (c6rec rq ts1 ts2 st).project_id ∧
        x.request_id = (c6rec rq ts1 ts2 st).request_id)) ≤ 1) :
    (parse_run projA fsEmpty "R1" [enqEvent rq ts1, compEvent rq ts2 st]).map
      (fun x => x.2) = .ok [c6rec rq ts1 ts2 st] ∧
    (parse_run projA fsEmpty "R1"
        [enqEvent rq ts1, compEvent rq ts2 st, compEvent rq ts3 st2]).map
      (fun x => x.2) = .ok [c6rec rq ts1 ts3 st2] ∧
    (upsert_request_rows T (c6rec rq ts1 ts2 st)).countP
      (fun x => decide (x.project_id = (c6rec rq ts1 ts2 st).project_id ∧
        x.request_id = (c6rec rq ts1 ts2 st).request_id)) = 1 ∧
    (∀ x ∈ upsert_request_rows T (c6rec rq ts1 ts2 st),
      (x.project_id = (c6rec rq ts1 ts2 st).project_id ∧
        x.request_id = (c6rec rq ts1 ts2 st).request_id) → x = c6rec rq ts1 ts2 st) := by
  have hone := upsert_request_rows_exactly_one T (c6rec rq ts1 ts2 st) hT
  refine ⟨?_, ?_, hone.1, hone.2⟩
  · simp [parse_run, parse_run_core, Except.map, bind, Except.bind, pure, Except.pure,
      parse_jsonl, applyEvent, jget, asStr, asInt, upsertReq, pyOr, apply_fallbacks,
      manifestFull, fill_from_metadata, apply_experiment_name, apply_verdict, deriveStatus,
      finalizeReqs, fsEmpty, projA, c6rec, enqEvent, compEvent, asObj, asArr, h1, h2]
  · simp [parse_run, parse_run_core, Except.map, bind, Except.bind, pure, Except.pure,
      parse_jsonl, applyEvent, jget, asStr, asInt, upsertReq, pyOr, apply_fallbacks,
      manifestFull, fill_from_metadata, apply_experiment_name, apply_verdict, deriveStatus,
      finalizeReqs, fsEmpty, projA, c6rec, enqEvent, compEvent, asObj, asArr, h1, h2, h3]

theorem request_events_exactly_one_row_witness :
    ("2026-01-01T00:00:00Z" : String) ≠ "" ∧
    (parse_run projA fsEmpty "R1"
        [enqEvent "rq-9" "2026-01-01T00:00:00Z",
         compEvent "rq-9" "2026-01-01T01:00:00Z" "ok"]).map (fun x => x.2) =
      .ok [c6rec "rq-9" "2026-01-01T00:00:00Z" "2026-01-01T01:00:00Z" "ok"] :=
  ⟨by decide,
   (request_events_exactly_one_row "rq-9" "2026-01-01T00:00:00Z" "2026-01-01T01:00:00Z"
      "2026-01-01T02:00:00Z" "ok" "failed" [] (by decide) (by decide) (by decide)
      (by decide)).1⟩

/-! ## C7: the instance reaper (`tools/cloud/reaper.py` lines 15-92)

The paginated `describe_instances` enumeration (filtered serverside on
the `cloud-run:launched-at` tag key and `running|pending` state) is the
input list.  `datetime.fromisoformat`, `float()` and the float
formatting used in the reason strings are oracle parameters; times are
rationals in seconds, hours as rationals. -/

structure CloudInstance where
  instanceId : String
  tags : List (String × String)
deriving DecidableEq, Repr

/-- The `{t["Key"]: t["Value"]}` comprehension (later duplicates win),
then `.get(key, "")`. -/
def tagGet (tags : List (String × String)) (k : String) : String :=
  ((tags.reverse.find? (fun kv => kv.1 = k)).map (fun kv => kv.2)).getD ""

structure ReapAction where
  instance_id : String
  run_id : String
  age_hours : ℚ
  max_hours : Option ℚ
  reason : String
  action : String
deriving DecidableEq, Repr

/-- The oracle bundle for the reaper: ISO-8601 parsing to seconds,
`float()` parsing, the `:.1f` and `str()` float formattings, and
`round(x, 2)`. -/
structure ReapEnv where
  parseTime : String → Option ℚ
  parseFloat : String → Option ℚ
  fmt1 : ℚ → String
  fmtS : ℚ → String
  round2 : ℚ → ℚ

/-- The body of the reaper loop for one enumerated instance: zero or one
action. -/
def reap_instance (env : ReapEnv) (now : ℚ) (dry_run : Bool) (hard_ceiling_hours : ℚ)
    (inst : CloudInstance) : List ReapAction :=
  let launchedStr := tagGet inst.tags "cloud-run:launched-at"
  if launchedStr = "" then []
  else
    match env.parseTime launchedStr with
    | none => []
    | some t =>
      let age := (now - t) / 3600
      let maxHours := env.parseFloat (tagGet inst.tags "cloud-run:max-hours")
      let runId := tagGet inst.tags "cloud-run:run-id"
      let reason : Option String :=
        match maxHours with
        | some m =>
          if age > m then
            some ("lease_expired (" ++ env.fmt1 age ++ "h > " ++ env.fmtS m ++ "h)")
          else if age > hard_ceiling_hours then
            some ("hard_ceiling (" ++ env.fmt1 age ++ "h > " ++ env.fmtS hard_ceiling_hours ++ "h)")
          else none
        | none =>
          if age > hard_ceiling_hours then
            some ("hard_ceiling (" ++ env.fmt1 age ++ "h > " ++ env.fmtS hard_ceiling_hours ++ "h)")
          else none
      match reason with
      | none => []
      | some rsn =>
        [{ instance_id := inst.instanceId
           run_id := runId
           age_hours := env.round2 age
           max_hours := maxHours
           reason := rsn
           action := if dry_run then "would_terminate" else "terminated" }]

/-- `reap`: the action list and, when not a dry run, the instance ids
passed to `backend.terminate` (in loop order). -/
def reap (env : ReapEnv) (now : ℚ) (dry_run : Bool) (hard_ceiling_hours : ℚ)
    (instances : List CloudInstance) : List ReapAction × List String :=
  (instances.flatMap (reap_instance env now dry_run hard_ceiling_hours),
   if dry_run then []
   else (instances.flatMap (reap_instance env now dry_run hard_ceiling_hours)).map
     (fun a => a.instance_id))

theorem reap_instance_dry (env : ReapEnv) (now ceil : ℚ) (i : CloudInstance) :
    reap_instance env now true ceil i =
      (reap_instance env now false ceil i).map
        (fun a => { a with action := "would_terminate" }) := by
  unfold reap_instance
  dsimp only
  by_cases h : tagGet i.tags "cloud-run:launched-at" = ""
  · rw [if_pos h, if_pos h]
    rfl
  rw [if_neg h, if_neg h]
  cases env.parseTime (tagGet i.tags "cloud-run:launched-at") with
  | none => rfl
  | some t =>
    dsimp only
    cases env.parseFloat (tagGet i.tags "cloud-run:max-hours") with
    | none =>
      dsimp only
      split_ifs <;> first | rfl | simp_all
    | some m =>
      dsimp only
      split_ifs <;> first | rfl | simp_all

/-- C7: an enumerated instance with a parseable `cloud-run:launched-at`
yields exactly one action — terminated when `dry_run=false` — exactly
when its age exceeds its own parseable `cloud-run:max-hours` or the hard
ceiling; the reason starts with `lease_expired` when its own max-hours
is exceeded and with `hard_ceiling` when only the ceiling is; a dry run
returns the same actions with `would_terminate` and terminates nothing.
-/
theorem reap_lease_and_ceiling (env : ReapEnv) (now : ℚ) (ceil : ℚ)
    (instances : List CloudInstance) (inst : CloudInstance) (t : ℚ)
    (hmem : inst ∈ instances)
    (hlaunch : tagGet inst.tags "cloud-run:launched-at" ≠ "")
    (hparse : env.parseTime (tagGet inst.tags "cloud-run:launched-at") = some t) :
    ((reap_instance env now false ceil inst).length = 1 ↔
      ((∃ m, env.parseFloat (tagGet inst.tags "cloud-run:max-hours") = some m ∧
          (now - t) / 3600 > m) ∨ (now - t) / 3600 > ceil)) ∧
    (∀ a ∈ reap_instance env now false ceil inst,
      ((∃ m, env.parseFloat (tagGet inst.tags "cloud-run:max-hours") = some m ∧
          (now - t) / 3600 > m) →
        ∃ rest, a.reason = "lease_expired" ++ rest) ∧
      ((¬(∃ m, env.parseFloat (tagGet inst.tags "cloud-run:max-hours") = some m ∧
            (now - t) / 3600 > m) ∧ (now - t) / 3600 > ceil) →
        ∃ rest, a.reason = "hard_ceiling" ++ rest) ∧
      a.action = "terminated" ∧ a.instance_id = inst.instanceId) ∧
    ((reap env now false ceil instances).2 =
      ((reap env now false ceil instances).1).map (fun a => a.instance_id)) ∧
    ((reap env now true ceil instances).1 =
      ((reap env now false ceil instances).1).map
        (fun a => { a with action := "would_terminate" })) ∧
    (reap env now true ceil instances).2 = [] := by
  refine ⟨?_, ?_, rfl, ?_, rfl⟩
  · unfold reap_instance
    rw [if_neg hlaunch, hparse]
    dsimp only
    cases hmh : env.parseFloat (tagGet inst.tags "cloud-run:max-hours") with
    | none =>
      dsimp only
      by_cases hc : (now - t) / 3600 > ceil
      · rw [if_pos hc]
        simp [hc]
      · rw [if_neg hc]
        simp [hc]
    | some m =>
      dsimp only
      by_cases hl : (now - t) / 3600 > m
      · rw [if_pos hl]
        simp [hl]
      · rw [if_neg hl]
        by_cases hc : (now - t) / 3600 > ceil
        · rw [if_pos hc]
          simp [hc]
        · rw [if_neg hc]
          simp [hl, hc]
  · intro a ha
    unfold reap_instance at ha
    rw [if_neg hlaunch, hparse] at ha
    dsimp only at ha
    cases hmh : env.parseFloat (tagGet inst.tags "cloud-run:max-hours") with
    | none =>
      rw [hmh] at ha
      dsimp only at ha
      by_cases hc : (now - t) / 3600 > ceil
      · rw [if_pos hc] at ha
        simp only [List.mem_singleton] at ha
        subst ha
        refine ⟨?_, ?_, rfl, rfl⟩
        · rintro ⟨m, hm, -⟩
          exact Option.noConfusion hm
        · rintro ⟨-, -⟩
          refine ⟨" (" ++ env.fmt1 ((now - t) / 3600) ++ "h > " ++ env.fmtS ceil ++ "h)", ?_⟩
          simp only [← String.append_assoc]
          rfl
      · rw [if_neg hc] at ha
        simp at ha
    | some m =>
      rw [hmh] at ha
      dsimp only at ha
      by_cases hl : (now - t) / 3600 > m
      · rw [if_pos hl] at ha
        simp only [List.mem_singleton] at ha
        subst ha
        refine ⟨?_, ?_, rfl, rfl⟩
        · intro _
          refine ⟨" (" ++ env.fmt1 ((now - t) / 3600) ++ "h > " ++ env.fmtS m ++ "h)", ?_⟩
          simp only [← String.append_assoc]
          rfl
        · rintro ⟨hno, -⟩
          exact absurd ⟨m, rfl, hl⟩ hno
      · rw [if_neg hl] at ha
        by_cases hc : (now - t) / 3600 > ceil
        · rw [if_pos hc] at ha
          simp only [List.mem_singleton] at ha
          subst ha
          refine ⟨?_, ?_, rfl, rfl⟩
          · rintro ⟨m2, hm2, hgt⟩
            have hm2' : m2 = m := by
              injection hm2 with h'
              exact h'.symm
            subst hm2'
            exact absurd hgt hl
          · rintro ⟨-, -⟩
            refine ⟨" (" ++ env.fmt1 ((now - t) / 3600) ++ "h > " ++ env.fmtS ceil ++ "h)", ?_⟩
            simp only [← String.append_assoc]
            rfl
        · rw [if_neg hc] at ha
          simp at ha
  · unfold reap
    show instances.flatMap (reap_instance env now true ceil) =
      (instances.flatMap (reap_instance env now false ceil)).map
        (fun a => { a with action := "would_terminate" })
    rw [List.map_flatMap]
    congr 1
    funext i
    exact reap_instance_dry env now ceil i

/-- A concrete oracle bundle and instance for the reaper witness:
launched five hours before `now`, with a four-hour lease. -/
def reapEnvC : ReapEnv :=
  { parseTime := fun s => if s = "2026-01-01T00:00:00+00:00" then some 0 else none
    parseFloat := fun s => if s = "4" then some 4 else none
    fmt1 := fun _ => "5.0"
    fmtS := fun _ => "4"
    round2 := fun q => q }

def instLease : CloudInstance :=
  { instanceId := "i-expired"
    tags := [("cloud-run:run-id", "run-exp"),
             ("cloud-run:launched-at", "2026-01-01T00:00:00+00:00"),
             ("cloud-run:max-hours", "4")] }

theorem reap_lease_and_ceiling_witness :
    instLease ∈ [instLease] ∧
    tagGet instLease.tags "cloud-run:launched-at" ≠ "" ∧
    reapEnvC.parseTime (tagGet instLease.tags "cloud-run:launched-at") = some 0 ∧
    ((reap_instance reapEnvC (5 * 3600) false 24 instLease).length = 1 ↔
      ((∃ m, reapEnvC.parseFloat (tagGet instLease.tags "cloud-run:max-hours") = some m ∧
          ((5 * 3600 : ℚ) - 0) / 3600 > m) ∨ ((5 * 3600 : ℚ) - 0) / 3600 > 24)) :=
  ⟨by decide, by decide, by decide,
   (reap_lease_and_ceiling reapEnvC (5 * 3600) 24 [instLease] instLease 0
      (by decide) (by decide) (by decide)).1⟩

/-! ## C8: the batch launch cost guard (`tools/cloud/batch.py` lines 67-147)

`preflight.check_spec` (which parses the spec file and may raise
`ValueError`/`FileNotFoundError`/`KeyError`) is an oracle from spec path
to `Except Unit Preflight`.  We model `launch_batch` — step 1 (count
validation), step 2 (cost guard), step 3 (`generate_batch_id`), step 4
(the per-spec `remote.run` dispatch) and step 5
(`save_batch_state`) — as an effect trace paired with an outcome.
Python floats are rationals.

Step 4 is where the source diverges from the spec: batch.py line 132
calls `remote.run(..., batch_id=batch_id)`, but `remote.run`
(remote.py lines 67-88) is keyword-only with no `batch_id` parameter
and no `**kwargs`, so Python raises `TypeError` at argument-binding
time on the first iteration — before any of `remote.run`'s own effects
and before the initial `save_batch_state`.  `launch_batch` has no
handler, so the `TypeError` propagates.  With an empty spec list the
loop body never runs: the initial state is saved, the poll loop is
skipped (`all` of nothing is true), and the final state is saved. -/

/-- The subset of `check_spec`'s result dict that the cost guard reads:
`cost_per_hour_spot`, `cost_per_hour` and
`profile["estimated_wall_hours"]`, each `Option` so that `.get`
defaults are explicit. -/
structure Preflight where
  cost_per_hour_spot : Option ℚ
  cost_per_hour : Option ℚ
  estimated_wall_hours : Option ℚ

inductive BatchEffect where
  | generateBatchId
  | provisionRun (spec : String)
  | saveBatchState
deriving DecidableEq, Repr

/-- Step 2's accumulation:
`cost = pf.get("cost_per_hour_spot", pf.get("cost_per_hour", 0)) *
pf.get("profile", \x7b\x7d).get("estimated_wall_hours", 0)`, with specs
whose preflight raises skipped (`except ... : pass`). -/
def estimated_total_cost (check_spec : String → Except Unit Preflight)
    (specs : List String) : ℚ :=
  specs.foldl (fun acc spec =>
    match check_spec spec with
    | .error _ => acc
    | .ok pf =>
      acc + (match pf.cost_per_hour_spot with
             | some c => c
             | none => pf.cost_per_hour.getD 0) * pf.estimated_wall_hours.getD 0) 0

/-- `launch_batch`'s outcome: success, the guard `ValueError`s of
steps 1 and 2, or the `TypeError` from the `batch_id=` keyword that
`remote.run` does not accept. -/
inductive BatchOutcome where
  | ok
  | valueError
  | typeError
deriving DecidableEq, Repr

/-- `launch_batch`: the effect trace (empty when a guard `ValueError`
is raised first) and the outcome.  With a non-empty spec list the
dispatch loop's first `remote.run(..., batch_id=batch_id)` call raises
`TypeError` at argument binding — after `generate_batch_id` but before
any provisioning effect and before any `save_batch_state`. -/
def launch_batch (check_spec : String → Except Unit Preflight)
    (specs : List String) (max_instances : Nat) (max_cost : Option ℚ) :
    List BatchEffect × BatchOutcome :=
  if specs.length > max_instances then ([], BatchOutcome.valueError)
  else
    match max_cost with
    | some m =>
      if estimated_total_cost check_spec specs > m then ([], BatchOutcome.valueError)
      else
        match specs with
        | [] => ([BatchEffect.generateBatchId, BatchEffect.saveBatchState,
                  BatchEffect.saveBatchState], BatchOutcome.ok)
        | _ :: _ => ([BatchEffect.generateBatchId], BatchOutcome.typeError)
    | none =>
      match specs with
      | [] => ([BatchEffect.generateBatchId, BatchEffect.saveBatchState,
                BatchEffect.saveBatchState], BatchOutcome.ok)
      | _ :: _ => ([BatchEffect.generateBatchId], BatchOutcome.typeError)

/-- C8: the cost-guard half of the claim holds — with at most
`max_instances` specs, an estimated total cost over `max_cost` makes
`launch_batch` fail with an empty effect trace (no batch id generated,
no run provisioned, no batch state saved), and a spec whose preflight
raises contributes nothing to the estimate — but the
provisioning-proceeds half is a code bug: with `max_cost = none`, or
within budget, any non-empty spec list makes `launch_batch` raise
`TypeError` (the `batch_id=` keyword that `remote.run` lacks) right
after `generate_batch_id`, so no spec is ever provisioned and no batch
state is ever saved: no call of `launch_batch` ever emits a
`provisionRun` effect. -/
theorem launch_batch_cost_guard (check_spec : String → Except Unit Preflight)
    (specs : List String) (max_instances : Nat) (m : ℚ)
    (hcount : specs.length ≤ max_instances) :
    (estimated_total_cost check_spec specs > m →
      launch_batch check_spec specs max_instances (some m) =
        ([], BatchOutcome.valueError)) ∧
    (∀ s, check_spec s = .error () →
      estimated_total_cost check_spec (s :: specs) =
        estimated_total_cost check_spec specs) ∧
    (specs ≠ [] →
      launch_batch check_spec specs max_instances none =
        ([BatchEffect.generateBatchId], BatchOutcome.typeError)) ∧
    (specs ≠ [] → estimated_total_cost check_spec specs ≤ m →
      launch_batch check_spec specs max_instances (some m) =
        ([BatchEffect.generateBatchId], BatchOutcome.typeError)) ∧
    (∀ (mc : Option ℚ) (s : String), BatchEffect.provisionRun s ∉
      (launch_batch check_spec specs max_instances mc).1) := by
  have hnot : ¬ specs.length > max_instances := Nat.not_lt.mpr hcount
  refine ⟨?_, ?_, ?_, ?_, ?_⟩
  · intro hgt
    unfold launch_batch
    rw [if_neg hnot]
    dsimp only
    rw [if_pos hgt]
  · intro s hs
    simp [estimated_total_cost, hs]
  · intro hne
    unfold launch_batch
    rw [if_neg hnot]
    cases specs with
    | nil => exact absurd rfl hne
    | cons a l => rfl
  · intro hne hle
    unfold launch_batch
    rw [if_neg hnot]
    dsimp only
    rw [if_neg (not_lt.mpr hle)]
    cases specs with
    | nil => exact absurd rfl hne
    | cons a l => rfl
  · intro mc s
    unfold launch_batch
    rw [if_neg hnot]
    cases mc with
    | none => cases specs <;> simp
    | some m' =>
      dsimp only
      by_cases hg : estimated_total_cost check_spec specs > m'
      · rw [if_pos hg]
        simp
      · rw [if_neg hg]
        cases specs <;> simp

/-- The spec scenario: two specs, each `cost_per_hour_spot = 0.47`,
`estimated_wall_hours = 5.0`. -/
def c8check : String → Except Unit Preflight := fun s =>
  if s = "specs/a.md" ∨ s = "specs/b.md" then
    .ok { cost_per_hour_spot := some (47/100), cost_per_hour := none,
          estimated_wall_hours := some 5 }
  else .error ()

theorem launch_batch_cost_guard_witness :
    (["specs/a.md", "specs/b.md"].length ≤ 5) ∧
    estimated_total_cost c8check ["specs/a.md", "specs/b.md"] > 1 ∧
    launch_batch c8check ["specs/a.md", "specs/b.md"] 5 (some 1) =
      ([], BatchOutcome.valueError) ∧
    launch_batch c8check ["specs/a.md", "specs/b.md"] 5 none =
      ([BatchEffect.generateBatchId], BatchOutcome.typeError) :=
  ⟨by decide, by norm_num [estimated_total_cost, c8check],
   (launch_batch_cost_guard c8check ["specs/a.md", "specs/b.md"] 5 1
      (by decide)).1 (by norm_num [estimated_total_cost, c8check]),
   (launch_batch_cost_guard c8check ["specs/a.md", "specs/b.md"] 5 1
      (by decide)).2.2.1 (by decide)⟩

/-! ## C9: the cloud-run duplicate guard (`tools/cloud/remote.py` lines 67-223)

`remote.run` is modeled as an effect trace over the persisted per-run
state plus an outcome.  The backend (`find_instances_by_spec`,
`provision`, `wait_ready`) is an oracle bundle; step 1 (image-URI
resolution or code upload) is the single abstract effect
`prepareArtifacts`; the non-detach continuation `_poll_and_retrieve`
is the abstract effect `pollAndRetrieve`.  A `spec_file` of `none` or
`""` is Python-falsy.  `DuplicateSpecError` is caught by the generic
`except Exception` handler, which overwrites status to `"error"`, finds
no persisted `instance_id` (provisioning never ran), and re-raises. -/

structure RunBackend where
  find_instances_by_spec : String → List String
  provision : String
  waitOk : Bool

inductive RunEffect where
  | saveState (status : String)
  | updateState (status : String)
  | prepareArtifacts
  | provisionInstance (instance_id : String)
  | registerRun (instance_id : String)
  | terminateInstance (instance_id : String)
  | pollAndRetrieve
deriving DecidableEq, Repr

inductive RunOutcome where
  | ok (instance_id : Option String)
  | duplicateSpec
  | error
deriving DecidableEq, Repr

/-- `remote.run`: state writes and outcome. -/
def cloudRun (backend : RunBackend) (spec_file : Option String)
    (allow_duplicate dry_run detach : Bool) : List RunEffect × RunOutcome :=
  if dry_run then ([RunEffect.saveState "dry_run"], RunOutcome.ok none)
  else
    let specStr := spec_file.getD ""
    if specStr ≠ "" ∧ allow_duplicate = false ∧
        backend.find_instances_by_spec specStr ≠ [] then
      ([RunEffect.saveState "pending", RunEffect.updateState "blocked_duplicate",
        RunEffect.updateState "error"], RunOutcome.duplicateSpec)
    else
      let iid := backend.provision
      if backend.waitOk then
        if detach then
          ([RunEffect.saveState "pending", RunEffect.prepareArtifacts,
            RunEffect.provisionInstance iid, RunEffect.updateState "provisioning",
            RunEffect.registerRun iid, RunEffect.updateState "running"],
           RunOutcome.ok (some iid))
        else
          ([RunEffect.saveState "pending", RunEffect.prepareArtifacts,
            RunEffect.provisionInstance iid, RunEffect.updateState "provisioning",
            RunEffect.registerRun iid, RunEffect.updateState "running",
            RunEffect.pollAndRetrieve],
           RunOutcome.ok (some iid))
      else
        ([RunEffect.saveState "pending", RunEffect.prepareArtifacts,
          RunEffect.provisionInstance iid, RunEffect.updateState "provisioning",
          RunEffect.registerRun iid, RunEffect.updateState "error"] ++
          (if iid ≠ "" then [RunEffect.terminateInstance iid] else []),
         RunOutcome.error)

/-- C9: with a non-empty `spec_file` and `allow_duplicate = false`, a
live instance reported by `find_instances_by_spec` makes the run fail
with `DuplicateSpecError` after marking the state `blocked_duplicate`,
and no instance is ever provisioned; with `allow_duplicate = true` the
check is skipped and provisioning proceeds to yield the backend's new
instance. -/
theorem run_duplicate_guard (backend : RunBackend) (s : String) (detach : Bool)
    (hs : s ≠ "") (hw : backend.waitOk = true) :
    (backend.find_instances_by_spec s ≠ [] →
      cloudRun backend (some s) false false detach =
        ([RunEffect.saveState "pending", RunEffect.updateState "blocked_duplicate",
          RunEffect.updateState "error"], RunOutcome.duplicateSpec) ∧
      ∀ i, RunEffect.provisionInstance i ∉
        (cloudRun backend (some s) false false detach).1) ∧
    (cloudRun backend (some s) true false true =
      ([RunEffect.saveState "pending", RunEffect.prepareArtifacts,
        RunEffect.provisionInstance backend.provision,
        RunEffect.updateState "provisioning",
        RunEffect.registerRun backend.provision,
        RunEffect.updateState "running"],
       RunOutcome.ok (some backend.provision))) := by
  constructor
  · intro hdup
    have heq : cloudRun backend (some s) false false detach =
        ([RunEffect.saveState "pending", RunEffect.updateState "blocked_duplicate",
          RunEffect.updateState "error"], RunOutcome.duplicateSpec) := by
      unfold cloudRun
      rw [if_neg (by simp)]
      dsimp only [Option.getD]
      rw [if_pos ⟨hs, rfl, hdup⟩]
    refine ⟨heq, ?_⟩
    intro i
    rw [heq]
    simp
  · unfold cloudRun
    rw [if_neg (by simp)]
    dsimp only [Option.getD]
    rw [if_neg (by rintro ⟨-, h, -⟩; exact Bool.noConfusion h)]
    rw [hw]
    rfl

/-- The spec scenario: a live instance already tagged with
`specs/a.md`. -/
def c9backend : RunBackend :=
  { find_instances_by_spec := fun s => if s = "specs/a.md" then ["i-live"] else []
    provision := "i-new"
    waitOk := true }

theorem run_duplicate_guard_witness :
    c9backend.find_instances_by_spec "specs/a.md" ≠ [] ∧
    cloudRun c9backend (some "specs/a.md") false false false =
      ([RunEffect.saveState "pending", RunEffect.updateState "blocked_duplicate",
        RunEffect.updateState "error"], RunOutcome.duplicateSpec) ∧
    cloudRun c9backend (some "specs/a.md") true false true =
      ([RunEffect.saveState "pending", RunEffect.prepareArtifacts,
        RunEffect.provisionInstance "i-new", RunEffect.updateState "provisioning",
        RunEffect.registerRun "i-new", RunEffect.updateState "running"],
       RunOutcome.ok (some "i-new")) :=
  ⟨by decide,
   ((run_duplicate_guard c9backend "specs/a.md" false (by decide) rfl).1
      (by decide)).1,
   (run_duplicate_guard c9backend "specs/a.md" false (by decide) rfl).2⟩

/-! ## C10: `poll_status` terminal absorption (`tools/cloud/remote.py` lines 239-291)

The persisted per-run state is the fields `poll_status` reads and
writes; `s3_helper.check_exit_code`, the backend instance-state lookup
(`_get_backend_for_run` plus `backend.status`, with any raise caught)
and `datetime.now` are oracles.  The function returns the persisted
state after the call, the `status` field of the returned dict, and the
list of external consultations and persists it performed; the heartbeat
lookup only decorates the returned dict and never changes `status`. -/

structure CloudState where
  status : String
  exit_code : Option Int
  instance_id : Option String
  finished_at : Option String
deriving DecidableEq, Repr

inductive PollEffect where
  | consultS3
  | consultInstance
  | consultHeartbeat
  | persistState
deriving DecidableEq, Repr

def poll_status (s3ExitCode : Option Int) (instanceState : Except Unit String)
    (now : String) (state : CloudState) : CloudState × String × List PollEffect :=
  if state.status = "completed" ∨ state.status = "failed" ∨ state.status = "error" then
    (state, state.status, [])
  else
    match s3ExitCode with
    | some c =>
      let newStatus := if c = 0 then "completed" else "failed"
      ({ state with
          status := newStatus
          exit_code := some c
          finished_at := some now },
       newStatus, [PollEffect.consultS3, PollEffect.persistState])
    | none =>
      match state.instance_id with
      | some iid =>
        if iid ≠ "" then
          match instanceState with
          | .ok ist =>
            if ist = "terminated" ∨ ist = "stopped" ∨ ist = "shutting-down" then
              ({ state with status := "terminated_no_results" },
               "terminated_no_results",
               [PollEffect.consultS3, PollEffect.consultInstance,
                PollEffect.persistState])
            else
              (state, "running",
               [PollEffect.consultS3, PollEffect.consultInstance,
                PollEffect.consultHeartbeat])
          | .error _ =>
            (state, "running",
             [PollEffect.consultS3, PollEffect.consultInstance,
              PollEffect.consultHeartbeat])
        else
          (state, "running", [PollEffect.consultS3, PollEffect.consultHeartbeat])
      | none =>
        (state, "running", [PollEffect.consultS3, PollEffect.consultHeartbeat])

/-- C10: a persisted status of `completed`, `failed` or `error` makes
`poll_status` return the stored state unchanged with no S3 or instance
consultation and no persist — terminal statuses are absorbing; a run
persisted as `terminated_no_results` is re-polled, and an exit-code
marker appearing in S3 transitions it to `completed` (code 0) or
`failed` (non-zero), persisted. -/
theorem poll_status_terminal_absorbing (s3 : Option Int)
    (inst : Except Unit String) (now : String) (st : CloudState) :
    ((st.status = "completed" ∨ st.status = "failed" ∨ st.status = "error") →
      poll_status s3 inst now st = (st, st.status, [])) ∧
    (st.status = "terminated_no_results" → ∀ c, s3 = some c →
      poll_status s3 inst now st =
        ({ st with
            status := if c = 0 then "completed" else "failed"
            exit_code := some c
            finished_at := some now },
         (if c = 0 then "completed" else "failed"),
         [PollEffect.consultS3, PollEffect.persistState])) := by
  constructor
  · intro h
    unfold poll_status
    rw [if_pos h]
  · intro h c hc
    unfold poll_status
    rw [if_neg (by rw [h]; decide), hc]

theorem poll_status_terminal_absorbing_witness :
    poll_status (some (0 : Int)) (Except.ok "terminated") "T"
        ⟨"error", some 1, some "i-x", none⟩ =
      (⟨"error", some 1, some "i-x", none⟩, "error", []) ∧
    poll_status (some (0 : Int)) (Except.ok "terminated") "T"
        ⟨"terminated_no_results", none, some "i-x", none⟩ =
      (⟨"completed", some 0, some "i-x", some "T"⟩, "completed",
       [PollEffect.consultS3, PollEffect.persistState]) :=
  ⟨(poll_status_terminal_absorbing (some 0) (Except.ok "terminated") "T"
      ⟨"error", some 1, some "i-x", none⟩).1 (by decide),
   (poll_status_terminal_absorbing (some 0) (Except.ok "terminated") "T"
      ⟨"terminated_no_results", none, some "i-x", none⟩).2 (by decide) 0 rfl⟩

end OrchKit
